import Mathlib

set_option maxHeartbeats 1000000
set_option maxRecDepth 100000

/-! Verification development for the Lumina lexical analyzer.

The definitions below are a shallow embedding of the tokenizer: the ordered
regex rule list is translated rule-by-rule into matchers on `List Char`
(first matching alternative wins, exactly like the alternation of the
master pattern of the source, whose alternatives are tried in declaration
order at each position), and the driver loop, the word classifier and the
fuzzy typo detector are translated statement-by-statement.  The similarity
ratio is the Ratcliff-Obershelp measure of the standard library the source
calls into (longest matching block, recursively on both sides; the ratio is
2*M/T and the 0.8 cutoff is compared exactly, as rationals). -/

namespace Lumina

/-- Single quote character (code point 39). -/
def sq : Char := Char.ofNat 39

/-- Double quote character (code point 34). -/
def dq : Char := Char.ofNat 34

/-- Backslash character (code point 92). -/
def bs : Char := Char.ofNat 92

/-- Single quote as a one-character string, used to build diagnostic texts. -/
def sqS : String := String.mk [sq]

/-- Length of the longest run of leading characters satisfying p: the greedy
star of a character class. -/
def cw (p : Char → Bool) : List Char → Nat
  | [] => 0
  | c :: cs => if p c then cw p cs + 1 else 0

/-- Word-constituent characters, the shorthand class of the source patterns. -/
def isWordChar (c : Char) : Bool := c.isAlphanum || c == '_'

/-- Distance to just past the first close-comment digraph, for the lazy body
of the block-comment pattern. -/
def findCloseCmt : List Char → Option Nat
  | '*' :: '/' :: _ => some 2
  | _ :: r => (findCloseCmt r).map (· + 1)
  | [] => none

/-- Rule COMMENT_MULTI: slash-star, lazy any-character body, star-slash. -/
def matchCommentMulti : List Char → Option Nat
  | '/' :: '*' :: r => (findCloseCmt r).map (2 + ·)
  | _ => none

/-- Rule COMMENT_SINGLE: two slashes then everything up to the newline. -/
def matchCommentSingle : List Char → Option Nat
  | '/' :: '/' :: r => some (2 + cw (fun c => c != '\n') r)
  | _ => none

/-- Rule ERR_UNTERM_CMT: slash-star then greedily the whole rest of the
buffer (tried only after COMMENT_MULTI failed). -/
def matchUntermCmt : List Char → Option Nat
  | '/' :: '*' :: r => some (2 + r.length)
  | _ => none

/-- The one-or-more repetitions of (dot digits) at the tail of the malformed
float pattern; returns the total number of characters consumed, 0 when no
full repetition is present. -/
def errFloatGroups : List Char → Nat
  | [] => 0
  | c :: r =>
    if c = '.' then
      let d := cw Char.isDigit r
      if d = 0 then 0 else 1 + d + errFloatGroups (r.drop d)
    else 0
termination_by l => l.length
decreasing_by simp [List.length_drop]; omega

/-- Rule ERR_FLOAT: digits, dot, digits, then at least one more (dot digits)
group. -/
def matchErrFloat (cs : List Char) : Option Nat :=
  let d1 := cw Char.isDigit cs
  if d1 = 0 then none else
    match cs.drop d1 with
    | '.' :: r1 =>
      let d2 := cw Char.isDigit r1
      if d2 = 0 then none else
        let g := errFloatGroups (r1.drop d2)
        if g = 0 then none else some (d1 + 1 + d2 + g)
    | _ => none

/-- Rule ERR_ID_DIGIT: digits then at least one letter or underscore. -/
def matchErrIdDigit (cs : List Char) : Option Nat :=
  let d := cw Char.isDigit cs
  if d = 0 then none else
    let l := cw (fun c => c.isAlpha || c == '_') (cs.drop d)
    if l = 0 then none else some (d + l)

/-- Rule ERR_ID_HYPHEN: letter or underscore, word characters, a hyphen,
then at least one word character. -/
def matchErrIdHyphen : List Char → Option Nat
  | c :: r =>
    if c.isAlpha || c == '_' then
      match r.drop (cw isWordChar r) with
      | '-' :: r2 =>
        if cw isWordChar r2 = 0 then none
        else some (1 + cw isWordChar r + 1 + cw isWordChar r2)
      | _ => none
    else none
  | [] => none

/-- Rule CHAR_LITERAL: a quote, one escaped non-newline character or one
plain character that is neither a quote nor a backslash, and a quote. -/
def matchCharLit : List Char → Option Nat
  | c0 :: c1 :: r =>
    if c0 == sq then
      if c1 == bs then
        match r with
        | c2 :: c3 :: _ => if c2 != '\n' && c3 == sq then some 4 else none
        | _ => none
      else if c1 == sq then none
      else
        match r with
        | c2 :: _ => if c2 == sq then some 3 else none
        | [] => none
    else none
  | _ => none

/-- Distance to the first single quote of the list, if any. -/
def findQuote : List Char → Option Nat
  | [] => none
  | c :: r => if c == sq then some 0 else (findQuote r).map (· + 1)

/-- Rule ERR_SINGLE_QUOTE: a quote, any non-quote characters, and the next
quote. -/
def matchErrSingleQuote : List Char → Option Nat
  | c :: r => if c == sq then (findQuote r).map (· + 2) else none
  | [] => none

/-- Body of the string-literal pattern after the opening double quote: each
step is an escaped non-newline character or a plain character that is
neither a double quote nor a backslash, ending at a closing double quote.
Returns the number of characters up to and including that closing quote. -/
def strBody : List Char → Option Nat
  | [] => none
  | c :: r =>
    if c == dq then some 1
    else if c == bs then
      match r with
      | [] => none
      | c2 :: r2 => if c2 == '\n' then none else (strBody r2).map (· + 2)
    else (strBody r).map (· + 1)

/-- Rule STRING_LITERAL. -/
def matchStringLit : List Char → Option Nat
  | c :: r => if c == dq then (strBody r).map (· + 1) else none
  | [] => none

/-- Rule UNTERM_STRING: a double quote then greedily all characters other
than a double quote or a newline. -/
def matchUntermString : List Char → Option Nat
  | c :: r => if c == dq then some (1 + cw (fun x => x != dq && x != '\n') r) else none
  | [] => none

/-- Rule FLOAT_LITERAL: digits, dot, digits. -/
def matchFloatLit (cs : List Char) : Option Nat :=
  let d1 := cw Char.isDigit cs
  if d1 = 0 then none else
    match cs.drop d1 with
    | '.' :: r1 =>
      let d2 := cw Char.isDigit r1
      if d2 = 0 then none else some (d1 + 1 + d2)
    | _ => none

/-- Rule INTEGER_LITERAL: one or more digits. -/
def matchIntLit (cs : List Char) : Option Nat :=
  let d := cw Char.isDigit cs
  if d = 0 then none else some d

/-- A fixed-text rule: matches exactly the given characters. -/
def matchLit : List Char → List Char → Option Nat
  | [], _ => some 0
  | p :: ps, c :: cs => if c == p then (matchLit ps cs).map (· + 1) else none
  | _ :: _, [] => none

/-- Rule ERR_OP_DBL_DASH: two hyphens followed (lookahead, not consumed) by
a digit. -/
def matchErrDblDash : List Char → Option Nat
  | '-' :: '-' :: c :: _ => if c.isDigit then some 2 else none
  | _ => none

/-- The single-character punctuation class of rule SYMBOL. -/
def symbolChars : List Char :=
  ['+', '-', '*', '/', '%', '=', '!', '>', '<', '(', ')',
   Char.ofNat 123, Char.ofNat 125, '[', ']', ',', ';', ':', '.', '?']

/-- Rule SYMBOL. -/
def matchSymbol : List Char → Option Nat
  | c :: _ => if c ∈ symbolChars then some 1 else none
  | [] => none

/-- Rule ERR_ILLEGAL_CHAR: the two explicitly illegal characters. -/
def matchIllegalChar : List Char → Option Nat
  | c :: _ => if c = '@' ∨ c = '#' then some 1 else none
  | [] => none

/-- Rule WORD: letter or underscore then word characters. -/
def matchWord : List Char → Option Nat
  | c :: r => if c.isAlpha || c == '_' then some (1 + cw isWordChar r) else none
  | [] => none

/-- Rule NEWLINE. -/
def matchNewline : List Char → Option Nat
  | '\n' :: _ => some 1
  | _ => none

/-- Rule SKIP: one or more blanks or tabs. -/
def matchSkip (cs : List Char) : Option Nat :=
  let n := cw (fun c => c == ' ' || c == '\t') cs
  if n = 0 then none else some n

/-- Rule MISMATCH: any single character other than a newline. -/
def matchMismatch : List Char → Option Nat
  | c :: _ => if c = '\n' then none else some 1
  | [] => none

/-- The ordered rule list of the tokenizer, in the declaration order of the
source; the first rule whose pattern matches at the current position wins. -/
def rules : List (String × (List Char → Option Nat)) :=
  [("COMMENT_MULTI", matchCommentMulti),
   ("COMMENT_SINGLE", matchCommentSingle),
   ("ERR_UNTERM_CMT", matchUntermCmt),
   ("ERR_FLOAT", matchErrFloat),
   ("ERR_ID_DIGIT", matchErrIdDigit),
   ("ERR_ID_HYPHEN", matchErrIdHyphen),
   ("CHAR_LITERAL", matchCharLit),
   ("ERR_SINGLE_QUOTE", matchErrSingleQuote),
   ("STRING_LITERAL", matchStringLit),
   ("UNTERM_STRING", matchUntermString),
   ("FLOAT_LITERAL", matchFloatLit),
   ("INTEGER_LITERAL", matchIntLit),
   ("ERR_OP_TRIPLE_EQ", matchLit ['=', '=', '=']),
   ("ERR_OP_REL_REV", matchLit ['=', '<']),
   ("ERR_OP_DBL_NOT", matchLit ['!', '!']),
   ("ERR_OP_DBL_DASH", matchErrDblDash),
   ("OP_ARROW", matchLit ['-', '>']),
   ("OP_EQ", matchLit ['=', '=']),
   ("OP_NEQ", matchLit ['!', '=']),
   ("OP_GE", matchLit ['>', '=']),
   ("OP_LE", matchLit ['<', '=']),
   ("OP_AND", matchLit ['&', '&']),
   ("OP_OR", matchLit ['|', '|']),
   ("OP_INC", matchLit ['+', '+']),
   ("OP_DEC", matchLit ['-', '-']),
   ("OP_ADD_ASS", matchLit ['+', '=']),
   ("OP_SUB_ASS", matchLit ['-', '=']),
   ("OP_MUL_ASS", matchLit ['*', '=']),
   ("OP_DIV_ASS", matchLit ['/', '=']),
   ("OP_MOD_ASS", matchLit ['%', '=']),
   ("OP_SHL", matchLit ['<', '<']),
   ("OP_SHR", matchLit ['>', '>']),
   ("OP_BIT_AND", matchLit ['&']),
   ("OP_BIT_OR", matchLit ['|']),
   ("OP_BIT_XOR", matchLit ['^']),
   ("OP_BIT_NOT", matchLit ['~']),
   ("SYMBOL", matchSymbol),
   ("ERR_ILLEGAL_CHAR", matchIllegalChar),
   ("WORD", matchWord),
   ("NEWLINE", matchNewline),
   ("SKIP", matchSkip),
   ("MISMATCH", matchMismatch)]

/-- First rule of the ordered list that matches at the head of cs. -/
def findRule (cs : List Char) : Option (String × Nat) :=
  rules.foldr (fun r acc => match r.2 cs with | some n => some (r.1, n) | none => acc) none

/-- One raw match after another, each consuming at least one character; fuel
is the length of the remaining input.  No pattern of the rule list matches
the empty string and for a nonempty input NEWLINE or MISMATCH always
matches, so the defaults below are never exercised; they only keep the
recursion visibly well founded. -/
def scanAux : Nat → List Char → List (String × String)
  | 0, _ => []
  | _, [] => []
  | fuel + 1, c :: cs =>
    let r := (findRule (c :: cs)).getD ("MISMATCH", 1)
    let n := max 1 r.2
    (r.1, String.mk ((c :: cs).take n)) :: scanAux fuel ((c :: cs).drop n)

/-- The ordered raw matches of a buffer (kind of the winning rule, lexeme). -/
def rawMatches (s : List Char) : List (String × String) := scanAux s.length s

/-- Number of newline characters of a lexeme. -/
def countNL (s : String) : Nat := s.data.count '\n'

/-- A result token: kind tag, lexeme, 1-based line number. -/
structure Token where
  type : String
  value : String
  line : Nat
deriving DecidableEq

/-- The running state of one tokenization run: line counter, the last
accepted keyword, and the accumulated token and diagnostic lists. -/
structure LexState where
  line : Nat
  lastKw : Option String
  tokens : List Token
  errors : List String
deriving DecidableEq

/-- Text of one diagnostic, line-stamped like the source formats it. -/
def errText (line : Nat) (msg : String) : String :=
  "Lexical Error (Line " ++ toString line ++ "): " ++ msg

/-- Append one diagnostic at the current line. -/
def addError (st : LexState) (msg : String) : LexState :=
  { st with errors := st.errors ++ [errText st.line msg] }

/-- Append one token at the current line. -/
def addToken (st : LexState) (kind v : String) : LexState :=
  { st with tokens := st.tokens ++ [⟨kind, v, st.line⟩] }

/-- Diagnostic followed by an Invalid token carrying the offending lexeme. -/
def errInvalid (st : LexState) (msg v : String) : LexState :=
  addToken (addError st msg) "INVALID" v

/-- The keyword set of the language. -/
def keywordsL : List String :=
  ["func", "main", "let", "var", "type", "struct", "void",
   "int", "char", "bool", "double", "float", "string",
   "requires", "ensures", "invariant", "old", "result",
   "if", "else", "switch", "case", "default", "break",
   "while", "do", "for", "return",
   "display", "read"]

/-- Reserved literals. -/
def reservedL : List String := ["null"]

/-- The noise words. -/
def noiseL : List String := ["that", "the", "is"]

/-- Primitive type names. -/
def primL : List String := ["int", "char", "bool", "double", "float", "string"]

/-- Contract-introducing keywords. -/
def contractsL : List String := ["requires", "ensures", "invariant"]

/-- The strict-predecessor set: the introducers plus every primitive type. -/
def strictL : List String := "func" :: "struct" :: "type" :: primL

/-- What noise word is registered for a given last keyword; none when the
last keyword has no entry or there is no last keyword. -/
def noiseCtx : Option String → Option String
  | some "requires" => some "that"
  | some "ensures" => some "the"
  | some "type" => some "is"
  | _ => none

/-- How the last-keyword context prints inside a diagnostic. -/
def lastKwStr : Option String → String
  | some k => k
  | none => "None"

/-- Lower-cased lexeme (the ASCII case fold used on these word lexemes). -/
def pyLower (v : String) : String := String.mk (v.data.map Char.toLower)

/-- The full vocabulary the typo detector compares against: keywords,
reserved literals and the boolean spellings.  The source materializes this
from a set, whose iteration order is unspecified; the order is irrelevant
because the best close match is selected by largest (ratio, spelling) pair,
which has a unique maximum. -/
def vocabL : List String := keywordsL ++ reservedL ++ ["true", "false"]

/-- Length of the common run of equal characters of a and b ending exactly
at indices i and j, confined to the windows starting at alo and blo. -/
def runLen (a b : List Char) (alo blo : Nat) : Nat → Nat → Nat
  | i + 1, j + 1 =>
    if alo ≤ i + 1 ∧ blo ≤ j + 1 ∧ a.getD (i + 1) ' ' = b.getD (j + 1) ' ' then
      runLen a b alo blo i j + 1
    else 0
  | i, j =>
    if alo ≤ i ∧ blo ≤ j ∧ a.getD i ' ' = b.getD j ' ' then 1 else 0

/-- Index range [lo, hi) as a list. -/
def idxs (lo hi : Nat) : List Nat := (List.range (hi - lo)).map (lo + ·)

/-- The longest matching block of a[alo:ahi] and b[blo:bhi]: scan ending
positions in ascending lexicographic order and keep the first strict
maximum, exactly the tie-breaking of the library routine. -/
def findLM (a b : List Char) (alo ahi blo bhi : Nat) : Nat × Nat × Nat :=
  (idxs alo ahi).foldl
    (fun best i =>
      (idxs blo bhi).foldl
        (fun best j =>
          let k := runLen a b alo blo i j
          if best.2.2 < k then (i + 1 - k, j + 1 - k, k) else best)
        best)
    (alo, blo, 0)

/-- Total size of the matching blocks of a[alo:ahi] and b[blo:bhi]: take the
longest matching block and recurse on the pieces to its left and right.
Fuel bounds the recursion depth; each level shrinks the first window by at
least one, so the initial fuel below is always sufficient. -/
def mbM (a b : List Char) : Nat → Nat × Nat × Nat × Nat → Nat
  | 0, _ => 0
  | fuel + 1, (alo, ahi, blo, bhi) =>
    match findLM a b alo ahi blo bhi with
    | (i, j, k) =>
      if k = 0 then 0
      else k + mbM a b fuel (alo, i, blo, j) + mbM a b fuel (i + k, ahi, j + k, bhi)

/-- The matched-character total M of the similarity ratio 2*M/T. -/
def ratioM (a b : List Char) : Nat :=
  mbM a b (a.length + b.length + 1) (0, a.length, 0, b.length)

/-- Code-point lexicographic comparison of character lists, the ordering of
the tie-break between equal ratios. -/
def strLt : List Char → List Char → Bool
  | [], [] => false
  | [], _ :: _ => true
  | _ :: _, [] => false
  | c :: a, d :: b => if c < d then true else if d < c then false else strLt a b

/-- Best close match of the vocabulary: keep every candidate whose ratio is
at least the 0.8 cutoff (2*M/T ≥ 4/5, compared exactly as 10*M ≥ 4*T) and
select the maximum by (ratio, spelling). -/
def closeMatchFold (v : String) : Option (Nat × Nat × String) :=
  vocabL.foldl
    (fun best x =>
      let M := ratioM x.data v.data
      let T := x.data.length + v.data.length
      if 4 * T ≤ 10 * M then
        match best with
        | none => some (M, T, x)
        | some (M0, T0, x0) =>
          if M0 * T < M * T0 ∨ (M * T0 = M0 * T ∧ strLt x0.data x.data) then
            some (M, T, x)
          else some (M0, T0, x0)
      else best)
    none

/-- The suggestion of the typo detector, when any candidate reaches the
cutoff. -/
def closeMatchBest (v : String) : Option String :=
  (closeMatchFold v).map (fun b => b.2.2)

/-- First character of a word lexeme.  Word lexemes are never empty, so the
default is never exercised by the tokenizer. -/
def headChar (v : String) : Char := v.data.headD 'a'

/-- Diagnostic texts of the classifier, verbatim from the source. -/
def useMsg (w : String) : String := "Invalid keyword. Use " ++ sqS ++ w ++ sqS ++ "."

/-- Keyword-used-as-identifier diagnostic. -/
def kwIdentMsg (v : String) : String :=
  "Invalid identifier " ++ sqS ++ v ++ sqS ++ ". Keywords cannot be used as variable or function names."

/-- Case-sensitivity diagnostic. -/
def caseMsg (v : String) : String :=
  "Keywords are case-sensitive. Did you mean " ++ sqS ++ pyLower v ++ sqS ++ "?"

/-- Fuzzy-typo diagnostic. -/
def typoMsg (v s : String) : String :=
  "Invalid lexeme " ++ sqS ++ v ++ sqS ++ ". Did you mean " ++ sqS ++ s ++ sqS ++ "?"

/-- Function-name naming-rule diagnostic. -/
def funcIdMsg (v : String) : String :=
  "Invalid function identifier " ++ sqS ++ v ++ sqS ++ ". Must be snake_case."

/-- Type-name capitalization diagnostic. -/
def typeIdMsg1 (v : String) : String :=
  "Invalid Type identifier " ++ sqS ++ v ++ sqS ++ ". Must start with Uppercase (PascalCase)."

/-- Type-name underscore diagnostic. -/
def typeIdMsg2 (v : String) : String :=
  "Invalid Type identifier " ++ sqS ++ v ++ sqS ++ ". Cannot contain underscores."

/-- Variable-name first-character diagnostic. -/
def varIdMsg1 (v : String) : String :=
  "Invalid variable identifier " ++ sqS ++ v ++ sqS ++ ". Variables must start with a lowercase letter."

/-- Variable-name embedded-uppercase diagnostic. -/
def varIdMsg2 (v : String) : String :=
  "Invalid variable identifier " ++ sqS ++ v ++ sqS ++ ". Must be snake_case (no uppercase)."

/-- Fallback underscore diagnostic. -/
def fallbackTypeMsg (v : String) : String :=
  "Invalid Type identifier " ++ sqS ++ v ++ sqS ++ ". Underscores allowed only in snake_case variables."

/-- Noise-word context diagnostic. -/
def noiseMsg (v : String) (lk : Option String) : String :=
  "Invalid noise word use. " ++ sqS ++ v ++ sqS ++ " is not valid after " ++ sqS ++ lastKwStr lk ++ sqS ++ "."

/-- Context-specific identifier classification and the fallback, the last
stage of the word classifier. -/
def idStage (v : String) (lastKw : Option String) : String × Option String :=
  if lastKw = some "func" then
    if v.data.any Char.isUpper then ("INVALID", some (funcIdMsg v))
    else ("ID_VAR_FUNC", none)
  else if lastKw = some "type" ∨ lastKw = some "struct" then
    if ¬ (headChar v).isUpper then ("INVALID", some (typeIdMsg1 v))
    else if v.data.contains '_' then ("INVALID", some (typeIdMsg2 v))
    else ("ID_VAR_TYPE", none)
  else if lastKw ∈ primL.map some then
    if (headChar v).isUpper then ("INVALID", some (varIdMsg1 v))
    else if v.data.any Char.isUpper then ("INVALID", some (varIdMsg2 v))
    else ("ID_VAR", none)
  else
    if (headChar v).isUpper then
      if v.data.contains '_' then ("INVALID", some (fallbackTypeMsg v))
      else ("ID_VAR_TYPE", none)
    else ("ID_VAR", none)

/-- The word classifier: given a word lexeme and the last accepted keyword,
return the token kind and the diagnostic it emits, if any.  The stages are
in the decision order of the source: explicit rejection list, boolean
literals, exact keyword with the strict-predecessor guard, reserved
literals, noise words, case-typo shortcut, fuzzy typo detection, then
identifier classification. -/
def classifyWord (v : String) (lastKw : Option String) : String × Option String :=
  if v = "function" then ("INVALID", some (useMsg "func"))
  else if v = "elseif" then ("INVALID", some (useMsg "else if"))
  else if v = "print" then ("INVALID", some (useMsg "display"))
  else if v = "true" ∨ v = "false" then ("BOOL_LITERAL", none)
  else if v ∈ keywordsL then
    match lastKw with
    | some k =>
      if k ∈ strictL then
        if k = "func" ∧ v = "main" then ("KEYWORD", none)
        else if k ∈ primL ∧ v ∈ contractsL then ("KEYWORD", none)
        else ("INVALID", some (kwIdentMsg v))
      else ("KEYWORD", none)
    | none => ("KEYWORD", none)
  else if v ∈ reservedL then ("RESERVED_WORD", none)
  else if v ∈ noiseL then ("NOISE_WORD", none)
  else if pyLower v ∈ keywordsL then ("INVALID", some (caseMsg v))
  else
    match closeMatchBest v with
    | some sugg =>
      if 1 < v.length then ("INVALID", some (typoMsg v sugg))
      else idStage v lastKw
    | none => idStage v lastKw

/-- Processing of one WORD match: classify, emit the possible diagnostic,
apply the context-sensitive noise-word check, update the last-keyword
context, and append the token. -/
def wordStep (st : LexState) (v : String) : LexState :=
  let c := classifyWord v st.lastKw
  let st1 := match c.2 with
    | some m => addError st m
    | none => st
  if c.1 = "NOISE_WORD" then
    if noiseCtx st.lastKw = some v then addToken st1 "NOISE_WORD" v
    else addToken { addError st1 (noiseMsg v st.lastKw) with lastKw := none } "INVALID" v
  else if c.1 = "KEYWORD" then addToken { st1 with lastKw := some v } "KEYWORD" v
  else addToken { st1 with lastKw := none } c.1 v

/-- Is p a prefix of s (the startswith test of the driver loop). -/
def isPre : List Char → List Char → Bool
  | [], _ => true
  | _ :: _, [] => false
  | p :: ps, c :: cs => p == c && isPre ps cs

/-- Processing of one raw match by the driver loop, branch for branch as in
the source: newlines and comments maintain the line counter and emit
nothing, every malformed category emits one diagnostic and one Invalid
token, words go through the classifier, and everything else is emitted
directly, clearing the keyword context. -/
def stepMatch (st : LexState) (kv : String × String) : LexState :=
  let kind := kv.1
  let v := kv.2
  if kind = "NEWLINE" then { st with line := st.line + 1 }
  else if kind = "SKIP" ∨ kind = "COMMENT_SINGLE" then st
  else if kind = "COMMENT_MULTI" then { st with line := st.line + countNL v }
  else if kind = "ERR_UNTERM_CMT" then
    addToken { addError st "Unterminated multi-line comment" with line := st.line + countNL v }
      "INVALID" v
  else if kind = "UNTERM_STRING" then errInvalid st "Unterminated string literal" v
  else if kind = "ERR_FLOAT" then
    errInvalid st ("Invalid numeric literal " ++ sqS ++ v ++ sqS) v
  else if kind = "ERR_SINGLE_QUOTE" then
    errInvalid st ("Invalid character literal " ++ sqS ++ v ++ sqS ++
      ". Char literals must contain exactly one character (e.g. " ++ sqS ++ "a" ++ sqS ++ ").") v
  else if kind = "ERR_ID_DIGIT" then
    errInvalid st ("Invalid identifier " ++ sqS ++ v ++ sqS ++ ". Cannot start with a digit.") v
  else if kind = "ERR_ID_HYPHEN" then
    errInvalid st ("Invalid identifier " ++ sqS ++ v ++ sqS ++ ". Hyphens are not allowed.") v
  else if kind = "ERR_ILLEGAL_CHAR" then
    errInvalid st ("Illegal character " ++ sqS ++ v ++ sqS ++ ".") v
  else if isPre (String.data "ERR_OP") kind.data then
    errInvalid st ("Invalid operator " ++ sqS ++ v ++ sqS ++ ".") v
  else if kind = "MISMATCH" then
    errInvalid st ("Unexpected character " ++ sqS ++ v ++ sqS) v
  else if kind = "WORD" then wordStep st v
  else addToken { st with lastKw := none } kind v

/-- Fresh state at the start of a run. -/
def initState : LexState := ⟨1, none, [], []⟩

/-- The final state of one full tokenization run over a buffer. -/
def lexRun (src : String) : LexState :=
  (rawMatches src.data).foldl stepMatch initState

/-- The tokenizer: the token list, terminated by the EOF token stamped with
the final line counter, together with the diagnostic list. -/
def tokenize (src : String) : List Token × List String :=
  let st := lexRun src
  (st.tokens ++ [⟨"EOF", "EOF", st.line⟩], st.errors)

/-- The kinds whose matches are consumed silently (no token appended). -/
def skipKindsL : List String := ["NEWLINE", "SKIP", "COMMENT_SINGLE", "COMMENT_MULTI"]

/-- The malformed-lexeme kinds handled by the error branches of the driver
loop (words that the classifier rejects are handled separately). -/
def errKindsL : List String :=
  ["ERR_UNTERM_CMT", "UNTERM_STRING", "ERR_FLOAT", "ERR_SINGLE_QUOTE",
   "ERR_ID_DIGIT", "ERR_ID_HYPHEN", "ERR_ILLEGAL_CHAR",
   "ERR_OP_TRIPLE_EQ", "ERR_OP_REL_REV", "ERR_OP_DBL_NOT", "ERR_OP_DBL_DASH",
   "MISMATCH"]

/-- The kinds the classifier can return. -/
def clsKindsL : List String :=
  ["INVALID", "BOOL_LITERAL", "KEYWORD", "RESERVED_WORD", "NOISE_WORD",
   "ID_VAR_FUNC", "ID_VAR_TYPE", "ID_VAR"]

/-- The rule names, in order. -/
def ruleNamesL : List String := rules.map Prod.fst

/-- The kinds whose lexemes may legitimately contain a newline character:
both block-comment kinds advance the line counter themselves, while the
three quoted-literal kinds can span a newline without advancing it. -/
def exemptNL : List String :=
  ["COMMENT_MULTI", "ERR_UNTERM_CMT", "STRING_LITERAL", "CHAR_LITERAL", "ERR_SINGLE_QUOTE"]

/-- What a rule guarantees about the newline content of its lexeme: a
NEWLINE match is exactly one newline character, the five exempt kinds may
contain newlines, and every other lexeme contains none. -/
def nlOk (name : String) (l : List Char) : Prop :=
  if name = "NEWLINE" then l = ['\n']
  else if name ∈ exemptNL then True
  else l.count '\n' = 0

/-- By how much one match advances the line counter. -/
def lineDelta (kv : String × String) : Nat :=
  if kv.1 = "NEWLINE" then 1
  else if kv.1 = "COMMENT_MULTI" ∨ kv.1 = "ERR_UNTERM_CMT" then countNL kv.2
  else 0

/-! ### Basic properties of the matchers -/

theorem data_mk (l : List Char) : (String.mk l).data = l := rfl

theorem nlOk_of_count {name : String} {l : List Char} (h1 : name ≠ "NEWLINE")
    (h2 : name ∉ exemptNL) (hc : l.count '\n' = 0) : nlOk name l := by
  unfold nlOk
  rw [if_neg h1, if_neg h2]
  exact hc

theorem nlOk_true {name : String} {l : List Char} (h1 : name ≠ "NEWLINE")
    (h2 : name ∈ exemptNL) : nlOk name l := by
  unfold nlOk
  rw [if_neg h1, if_pos h2]
  trivial

theorem nlOk_newline {l : List Char} (h : l = ['\n']) : nlOk "NEWLINE" l := by
  unfold nlOk
  rw [if_pos rfl]
  exact h

theorem cw_take {p : Char → Bool} : ∀ (cs : List Char) (c : Char), c ∈ cs.take (cw p cs) → p c = true := by
  intro cs
  induction cs with
  | nil => intro c hc; simp [cw] at hc
  | cons a l ih =>
    intro c hc
    simp only [cw] at hc
    by_cases hp : p a
    · rw [if_pos hp, List.take_succ_cons] at hc
      rcases List.mem_cons.mp hc with rfl | hc
      · exact hp
      · exact ih c hc
    · rw [if_neg hp] at hc
      simp at hc

theorem cw_count_nl {p : Char → Bool} (hp : p '\n' = false) (cs : List Char) :
    (cs.take (cw p cs)).count '\n' = 0 := by
  rw [List.count_eq_zero]
  intro h
  have h2 := cw_take cs '\n' h
  rw [hp] at h2
  exact Bool.false_ne_true h2

theorem ne_nl (p : Char → Bool) (hp : p '\n' = false) {c : Char} (hc : p c = true) :
    c ≠ '\n' := by
  intro h
  rw [h, hp] at hc
  exact Bool.false_ne_true hc

theorem count_nl_cons {c : Char} (h : c ≠ '\n') (l : List Char) :
    (c :: l).count '\n' = l.count '\n' := by
  have hb : ('\n' == c) = false := by
    rw [beq_eq_false_iff_ne]
    exact Ne.symm h
  simp [List.count_cons, hb, h]

theorem matchLit_spec : ∀ (p cs : List Char) (n : Nat),
    matchLit p cs = some n → n = p.length ∧ cs.take n = p := by
  intro p
  induction p with
  | nil =>
    intro cs n h
    simp only [matchLit, Option.some.injEq] at h
    subst h
    simp
  | cons q ps ih =>
    intro cs n h
    match cs with
    | [] => simp [matchLit] at h
    | c :: cs' =>
      simp only [matchLit] at h
      by_cases hc : c == q
      · rw [if_pos hc] at h
        rcases Option.map_eq_some'.mp h with ⟨m, hm, rfl⟩
        obtain ⟨rfl, ht⟩ := ih cs' m hm
        refine ⟨by simp, ?_⟩
        rw [List.take_succ_cons, ht, beq_iff_eq.mp hc]
      · rw [if_neg hc] at h
        cases h

theorem commentMulti_ok : ∀ (cs : List Char) (n : Nat),
    matchCommentMulti cs = some n → 1 ≤ n ∧ nlOk "COMMENT_MULTI" (cs.take n) := by
  intro cs n h
  refine ⟨?_, nlOk_true (by decide) (by decide)⟩
  unfold matchCommentMulti at h
  split at h
  · rcases Option.map_eq_some'.mp h with ⟨k, _, rfl⟩
    omega
  · cases h

theorem commentSingle_ok : ∀ (cs : List Char) (n : Nat),
    matchCommentSingle cs = some n → 1 ≤ n ∧ nlOk "COMMENT_SINGLE" (cs.take n) := by
  intro cs n h
  unfold matchCommentSingle at h
  split at h
  next r =>
    injection h with h
    subst h
    refine ⟨by omega, nlOk_of_count (by decide) (by decide) ?_⟩
    rw [show 2 + cw (fun c => c != '\n') r = (cw (fun c => c != '\n') r + 1) + 1 from by omega]
    rw [List.take_succ_cons, count_nl_cons (by decide), List.take_succ_cons,
      count_nl_cons (by decide)]
    exact @cw_count_nl (fun c => c != '\n') (by decide) r
  next => cases h

theorem untermCmt_ok : ∀ (cs : List Char) (n : Nat),
    matchUntermCmt cs = some n → 1 ≤ n ∧ nlOk "ERR_UNTERM_CMT" (cs.take n) := by
  intro cs n h
  refine ⟨?_, nlOk_true (by decide) (by decide)⟩
  unfold matchUntermCmt at h
  split at h
  · injection h with h
    omega
  · cases h

theorem errFloatGroups_count (r : List Char) :
    (r.take (errFloatGroups r)).count '\n' = 0 := by
  match r with
  | [] => simp [errFloatGroups]
  | c :: r' =>
    simp only [errFloatGroups]
    by_cases hc : c = '.'
    · rw [if_pos hc]
      by_cases hd : cw Char.isDigit r' = 0
      · rw [if_pos hd]
        simp
      · rw [if_neg hd]
        have hrec := errFloatGroups_count (r'.drop (cw Char.isDigit r'))
        rw [show 1 + cw Char.isDigit r' + errFloatGroups (r'.drop (cw Char.isDigit r'))
              = (cw Char.isDigit r' + errFloatGroups (r'.drop (cw Char.isDigit r'))) + 1 from by omega]
        rw [List.take_succ_cons, count_nl_cons (hc ▸ (by decide : ('.' : Char) ≠ '\n')),
          List.take_add, List.count_append, @cw_count_nl Char.isDigit (by decide) r', hrec]
    · rw [if_neg hc]
      simp
termination_by r.length
decreasing_by simp [List.length_drop]; omega

theorem errFloat_ok : ∀ (cs : List Char) (n : Nat),
    matchErrFloat cs = some n → 1 ≤ n ∧ nlOk "ERR_FLOAT" (cs.take n) := by
  intro cs n h
  simp only [matchErrFloat] at h
  by_cases h1 : cw Char.isDigit cs = 0
  · rw [if_pos h1] at h; cases h
  rw [if_neg h1] at h
  split at h
  next r1 heq =>
    by_cases h2 : cw Char.isDigit r1 = 0
    · rw [if_pos h2] at h; cases h
    rw [if_neg h2] at h
    by_cases h3 : errFloatGroups (r1.drop (cw Char.isDigit r1)) = 0
    · rw [if_pos h3] at h; cases h
    rw [if_neg h3] at h
    injection h with h
    subst h
    refine ⟨by omega, nlOk_of_count (by decide) (by decide) ?_⟩
    rw [show cw Char.isDigit cs + 1 + cw Char.isDigit r1 +
          errFloatGroups (r1.drop (cw Char.isDigit r1))
        = cw Char.isDigit cs + ((cw Char.isDigit r1 +
          errFloatGroups (r1.drop (cw Char.isDigit r1))) + 1) from by omega]
    rw [List.take_add, List.count_append, @cw_count_nl Char.isDigit (by decide) cs, heq,
      List.take_succ_cons, count_nl_cons (by decide), List.take_add, List.count_append,
      @cw_count_nl Char.isDigit (by decide) r1, errFloatGroups_count]
  next => cases h

theorem errIdDigit_ok : ∀ (cs : List Char) (n : Nat),
    matchErrIdDigit cs = some n → 1 ≤ n ∧ nlOk "ERR_ID_DIGIT" (cs.take n) := by
  intro cs n h
  simp only [matchErrIdDigit] at h
  by_cases h1 : cw Char.isDigit cs = 0
  · rw [if_pos h1] at h; cases h
  rw [if_neg h1] at h
  by_cases h2 : cw (fun c => c.isAlpha || c == '_') (cs.drop (cw Char.isDigit cs)) = 0
  · rw [if_pos h2] at h; cases h
  rw [if_neg h2] at h
  injection h with h
  subst h
  refine ⟨by omega, nlOk_of_count (by decide) (by decide) ?_⟩
  rw [List.take_add, List.count_append, @cw_count_nl Char.isDigit (by decide) cs,
    @cw_count_nl (fun c => c.isAlpha || c == '_') (by decide) (cs.drop (cw Char.isDigit cs))]

theorem errIdHyphen_ok : ∀ (cs : List Char) (n : Nat),
    matchErrIdHyphen cs = some n → 1 ≤ n ∧ nlOk "ERR_ID_HYPHEN" (cs.take n) := by
  intro cs n h
  unfold matchErrIdHyphen at h
  split at h
  next c r =>
    by_cases hc : (c.isAlpha || c == '_') = true
    · rw [if_pos hc] at h
      split at h
      next r2 heq =>
        by_cases h2 : cw isWordChar r2 = 0
        · simp only [h2, if_pos] at h; cases h
        rw [if_neg h2] at h
        injection h with h
        subst h
        refine ⟨by omega, nlOk_of_count (by decide) (by decide) ?_⟩
        rw [show 1 + cw isWordChar r + 1 + cw isWordChar r2
              = (cw isWordChar r + (cw isWordChar r2 + 1)) + 1 from by omega]
        rw [List.take_succ_cons, count_nl_cons (ne_nl (fun c => c.isAlpha || c == '_') (by decide) hc),
          List.take_add, List.count_append, @cw_count_nl isWordChar (by decide) r, heq,
          List.take_succ_cons, count_nl_cons (by decide),
          @cw_count_nl isWordChar (by decide) r2]
      next => cases h
    · rw [if_neg hc] at h
      cases h
  next => cases h

theorem charLit_ok : ∀ (cs : List Char) (n : Nat),
    matchCharLit cs = some n → 1 ≤ n ∧ nlOk "CHAR_LITERAL" (cs.take n) := by
  intro cs n h
  refine ⟨?_, nlOk_true (by decide) (by decide)⟩
  unfold matchCharLit at h
  repeat' split at h
  any_goals cases h
  all_goals omega

theorem errSingleQuote_ok : ∀ (cs : List Char) (n : Nat),
    matchErrSingleQuote cs = some n → 1 ≤ n ∧ nlOk "ERR_SINGLE_QUOTE" (cs.take n) := by
  intro cs n h
  refine ⟨?_, nlOk_true (by decide) (by decide)⟩
  unfold matchErrSingleQuote at h
  repeat' split at h
  · rcases Option.map_eq_some'.mp h with ⟨k, _, rfl⟩
    omega
  all_goals cases h

theorem stringLit_ok : ∀ (cs : List Char) (n : Nat),
    matchStringLit cs = some n → 1 ≤ n ∧ nlOk "STRING_LITERAL" (cs.take n) := by
  intro cs n h
  refine ⟨?_, nlOk_true (by decide) (by decide)⟩
  unfold matchStringLit at h
  repeat' split at h
  · rcases Option.map_eq_some'.mp h with ⟨k, _, rfl⟩
    omega
  all_goals cases h

theorem untermString_ok : ∀ (cs : List Char) (n : Nat),
    matchUntermString cs = some n → 1 ≤ n ∧ nlOk "UNTERM_STRING" (cs.take n) := by
  intro cs n h
  unfold matchUntermString at h
  split at h
  next c r =>
    by_cases hc : (c == dq) = true
    · rw [if_pos hc] at h
      injection h with h
      subst h
      refine ⟨by omega, nlOk_of_count (by decide) (by decide) ?_⟩
      rw [show 1 + cw (fun x => x != dq && x != '\n') r
            = cw (fun x => x != dq && x != '\n') r + 1 from by omega]
      rw [List.take_succ_cons,
        count_nl_cons ((beq_iff_eq.mp hc) ▸ (by decide : dq ≠ '\n')),
        @cw_count_nl (fun x => x != dq && x != '\n') (by decide) r]
    · rw [if_neg hc] at h
      cases h
  next => cases h

theorem floatLit_ok : ∀ (cs : List Char) (n : Nat),
    matchFloatLit cs = some n → 1 ≤ n ∧ nlOk "FLOAT_LITERAL" (cs.take n) := by
  intro cs n h
  simp only [matchFloatLit] at h
  by_cases h1 : cw Char.isDigit cs = 0
  · rw [if_pos h1] at h; cases h
  rw [if_neg h1] at h
  split at h
  next r1 heq =>
    by_cases h2 : cw Char.isDigit r1 = 0
    · rw [if_pos h2] at h; cases h
    rw [if_neg h2] at h
    injection h with h
    subst h
    refine ⟨by omega, nlOk_of_count (by decide) (by decide) ?_⟩
    rw [show cw Char.isDigit cs + 1 + cw Char.isDigit r1
          = cw Char.isDigit cs + (cw Char.isDigit r1 + 1) from by omega]
    rw [List.take_add, List.count_append, @cw_count_nl Char.isDigit (by decide) cs, heq,
      List.take_succ_cons, count_nl_cons (by decide),
      @cw_count_nl Char.isDigit (by decide) r1]
  next => cases h

theorem intLit_ok : ∀ (cs : List Char) (n : Nat),
    matchIntLit cs = some n → 1 ≤ n ∧ nlOk "INTEGER_LITERAL" (cs.take n) := by
  intro cs n h
  simp only [matchIntLit] at h
  by_cases h1 : cw Char.isDigit cs = 0
  · rw [if_pos h1] at h; cases h
  rw [if_neg h1] at h
  injection h with h
  subst h
  exact ⟨by omega, nlOk_of_count (by decide) (by decide)
    (@cw_count_nl Char.isDigit (by decide) cs)⟩

theorem dblDash_ok : ∀ (cs : List Char) (n : Nat),
    matchErrDblDash cs = some n → 1 ≤ n ∧ nlOk "ERR_OP_DBL_DASH" (cs.take n) := by
  intro cs n h
  unfold matchErrDblDash at h
  split at h
  next c t =>
    split at h
    · injection h with h
      subst h
      refine ⟨by omega, nlOk_of_count (by decide) (by decide) ?_⟩
      have he : List.take 2 ('-' :: '-' :: c :: t) = ['-', '-'] := rfl
      rw [he]
      decide
    · cases h
  next => cases h

theorem symbol_ok : ∀ (cs : List Char) (n : Nat),
    matchSymbol cs = some n → 1 ≤ n ∧ nlOk "SYMBOL" (cs.take n) := by
  intro cs n h
  unfold matchSymbol at h
  split at h
  next c r =>
    by_cases hc : c ∈ symbolChars
    · rw [if_pos hc] at h
      injection h with h
      subst h
      have hne : c ≠ '\n' := (by decide : ∀ x ∈ symbolChars, x ≠ '\n') c hc
      refine ⟨by omega, nlOk_of_count (by decide) (by decide) ?_⟩
      rw [List.take_succ_cons, List.take_zero, count_nl_cons hne, List.count_nil]
    · rw [if_neg hc] at h
      cases h
  next => cases h

theorem illegal_ok : ∀ (cs : List Char) (n : Nat),
    matchIllegalChar cs = some n → 1 ≤ n ∧ nlOk "ERR_ILLEGAL_CHAR" (cs.take n) := by
  intro cs n h
  unfold matchIllegalChar at h
  split at h
  next c r =>
    by_cases hc : c = '@' ∨ c = '#'
    · rw [if_pos hc] at h
      injection h with h
      subst h
      have hne : c ≠ '\n' := by rcases hc with rfl | rfl <;> decide
      refine ⟨by omega, nlOk_of_count (by decide) (by decide) ?_⟩
      rw [List.take_succ_cons, List.take_zero, count_nl_cons hne, List.count_nil]
    · rw [if_neg hc] at h
      cases h
  next => cases h

theorem word_ok : ∀ (cs : List Char) (n : Nat),
    matchWord cs = some n → 1 ≤ n ∧ nlOk "WORD" (cs.take n) := by
  intro cs n h
  unfold matchWord at h
  split at h
  next c r =>
    by_cases hc : (c.isAlpha || c == '_') = true
    · rw [if_pos hc] at h
      injection h with h
      subst h
      refine ⟨by omega, nlOk_of_count (by decide) (by decide) ?_⟩
      rw [show 1 + cw isWordChar r = cw isWordChar r + 1 from by omega]
      rw [List.take_succ_cons,
        count_nl_cons (ne_nl (fun c => c.isAlpha || c == '_') (by decide) hc),
        @cw_count_nl isWordChar (by decide) r]
    · rw [if_neg hc] at h
      cases h
  next => cases h

theorem newline_ok : ∀ (cs : List Char) (n : Nat),
    matchNewline cs = some n → 1 ≤ n ∧ nlOk "NEWLINE" (cs.take n) := by
  intro cs n h
  unfold matchNewline at h
  split at h
  next r =>
    injection h with h
    subst h
    exact ⟨le_refl 1, nlOk_newline (by rw [List.take_succ_cons, List.take_zero])⟩
  next => cases h

theorem skip_ok : ∀ (cs : List Char) (n : Nat),
    matchSkip cs = some n → 1 ≤ n ∧ nlOk "SKIP" (cs.take n) := by
  intro cs n h
  simp only [matchSkip] at h
  by_cases h1 : cw (fun c => c == ' ' || c == '\t') cs = 0
  · rw [if_pos h1] at h; cases h
  rw [if_neg h1] at h
  injection h with h
  subst h
  exact ⟨by omega, nlOk_of_count (by decide) (by decide)
    (@cw_count_nl (fun c => c == ' ' || c == '\t') (by decide) cs)⟩

theorem mismatch_ok : ∀ (cs : List Char) (n : Nat),
    matchMismatch cs = some n → 1 ≤ n ∧ nlOk "MISMATCH" (cs.take n) := by
  intro cs n h
  unfold matchMismatch at h
  split at h
  next c r =>
    by_cases hc : c = '\n'
    · rw [if_pos hc] at h
      cases h
    · rw [if_neg hc] at h
      injection h with h
      subst h
      refine ⟨by omega, nlOk_of_count (by decide) (by decide) ?_⟩
      rw [List.take_succ_cons, List.take_zero, count_nl_cons hc, List.count_nil]
  next => cases h

theorem litRule_ok (name : String) (p : List Char) (h1 : name ≠ "NEWLINE")
    (h2 : name ∉ exemptNL) (hp : 1 ≤ p.length) (hnl : p.count '\n' = 0) :
    ∀ (cs : List Char) (n : Nat), matchLit p cs = some n → 1 ≤ n ∧ nlOk name (cs.take n) := by
  intro cs n h
  obtain ⟨rfl, ht⟩ := matchLit_spec p cs n h
  exact ⟨hp, nlOk_of_count h1 h2 (by rw [ht]; exact hnl)⟩

/-- Every rule of the list consumes at least one character and guarantees
the newline discipline of its kind. -/
theorem rules_spec : ∀ pr ∈ rules, ∀ (cs : List Char) (n : Nat),
    pr.2 cs = some n → 1 ≤ n ∧ nlOk pr.1 (cs.take n) := by
  intro pr hpr
  simp only [rules, List.mem_cons, List.not_mem_nil, or_false] at hpr
  rcases hpr with rfl | rfl | rfl | rfl | rfl | rfl | rfl | rfl | rfl | rfl | rfl | rfl | rfl |
    rfl | rfl | rfl | rfl | rfl | rfl | rfl | rfl | rfl | rfl | rfl | rfl | rfl | rfl | rfl |
    rfl | rfl | rfl | rfl | rfl | rfl | rfl | rfl | rfl | rfl | rfl | rfl | rfl | rfl
  · exact commentMulti_ok
  · exact commentSingle_ok
  · exact untermCmt_ok
  · exact errFloat_ok
  · exact errIdDigit_ok
  · exact errIdHyphen_ok
  · exact charLit_ok
  · exact errSingleQuote_ok
  · exact stringLit_ok
  · exact untermString_ok
  · exact floatLit_ok
  · exact intLit_ok
  · exact litRule_ok _ _ (by decide) (by decide) (by decide) (by decide)
  · exact litRule_ok _ _ (by decide) (by decide) (by decide) (by decide)
  · exact litRule_ok _ _ (by decide) (by decide) (by decide) (by decide)
  · exact dblDash_ok
  · exact litRule_ok _ _ (by decide) (by decide) (by decide) (by decide)
  · exact litRule_ok _ _ (by decide) (by decide) (by decide) (by decide)
  · exact litRule_ok _ _ (by decide) (by decide) (by decide) (by decide)
  · exact litRule_ok _ _ (by decide) (by decide) (by decide) (by decide)
  · exact litRule_ok _ _ (by decide) (by decide) (by decide) (by decide)
  · exact litRule_ok _ _ (by decide) (by decide) (by decide) (by decide)
  · exact litRule_ok _ _ (by decide) (by decide) (by decide) (by decide)
  · exact litRule_ok _ _ (by decide) (by decide) (by decide) (by decide)
  · exact litRule_ok _ _ (by decide) (by decide) (by decide) (by decide)
  · exact litRule_ok _ _ (by decide) (by decide) (by decide) (by decide)
  · exact litRule_ok _ _ (by decide) (by decide) (by decide) (by decide)
  · exact litRule_ok _ _ (by decide) (by decide) (by decide) (by decide)
  · exact litRule_ok _ _ (by decide) (by decide) (by decide) (by decide)
  · exact litRule_ok _ _ (by decide) (by decide) (by decide) (by decide)
  · exact litRule_ok _ _ (by decide) (by decide) (by decide) (by decide)
  · exact litRule_ok _ _ (by decide) (by decide) (by decide) (by decide)
  · exact litRule_ok _ _ (by decide) (by decide) (by decide) (by decide)
  · exact litRule_ok _ _ (by decide) (by decide) (by decide) (by decide)
  · exact litRule_ok _ _ (by decide) (by decide) (by decide) (by decide)
  · exact litRule_ok _ _ (by decide) (by decide) (by decide) (by decide)
  · exact symbol_ok
  · exact illegal_ok
  · exact word_ok
  · exact newline_ok
  · exact skip_ok
  · exact mismatch_ok

/-! ### The scanner loop -/

theorem foldr_firstSome (cs : List Char) :
    ∀ (rs : List (String × (List Char → Option Nat))) (r : String × Nat),
      rs.foldr (fun pr acc => match pr.2 cs with | some n => some (pr.1, n) | none => acc) none
        = some r →
      ∃ m, (r.1, m) ∈ rs ∧ m cs = some r.2 := by
  intro rs
  induction rs with
  | nil => intro r h; cases h
  | cons pr rs ih =>
    intro r h
    rw [List.foldr_cons] at h
    cases hm : pr.2 cs with
    | some n =>
      rw [hm] at h
      injection h with h
      subst h
      exact ⟨pr.2, List.mem_cons_self pr rs, hm⟩
    | none =>
      rw [hm] at h
      obtain ⟨m, hmem, hcs⟩ := ih r h
      exact ⟨m, List.mem_cons_of_mem _ hmem, hcs⟩

theorem foldr_none (cs : List Char) :
    ∀ (rs : List (String × (List Char → Option Nat))),
      rs.foldr (fun pr acc => match pr.2 cs with | some n => some (pr.1, n) | none => acc) none
        = none →
      ∀ pr ∈ rs, pr.2 cs = none := by
  intro rs
  induction rs with
  | nil =>
    intro _ pr hpr
    cases hpr
  | cons q rs ih =>
    intro h pr hpr
    rw [List.foldr_cons] at h
    cases hm : q.2 cs with
    | some n => rw [hm] at h; cases h
    | none =>
      rw [hm] at h
      rcases List.mem_cons.mp hpr with rfl | hpr
      · exact hm
      · exact ih h pr hpr

theorem findRule_mem {cs : List Char} {r : String × Nat} (h : findRule cs = some r) :
    ∃ m, (r.1, m) ∈ rules ∧ m cs = some r.2 := by
  unfold findRule at h
  exact foldr_firstSome cs rules r h

theorem findRule_cons (c : Char) (cs : List Char) : (findRule (c :: cs)).isSome := by
  cases hf : findRule (c :: cs) with
  | some r => rfl
  | none =>
    exfalso
    unfold findRule at hf
    have hall := foldr_none (c :: cs) rules hf
    by_cases hc : c = '\n'
    · have hN := hall ("NEWLINE", matchNewline) (by simp [rules])
      subst hc
      simp [matchNewline] at hN
    · have hM := hall ("MISMATCH", matchMismatch) (by simp [rules])
      simp only [matchMismatch] at hM
      rw [if_neg hc] at hM
      cases hM

/-- Total coverage of the scanner: the raw matches concatenate back to the
input, with no character dropped or duplicated. -/
theorem scanAux_join : ∀ (fuel : Nat) (cs : List Char), cs.length ≤ fuel →
    ((scanAux fuel cs).map (fun p => p.2.data)).flatten = cs := by
  intro fuel
  induction fuel with
  | zero =>
    intro cs h
    have he : cs = [] := List.length_eq_zero.mp (Nat.le_zero.mp h)
    subst he
    rfl
  | succ fuel ih =>
    intro cs h
    match cs with
    | [] => rfl
    | c :: cs' =>
      have hlen : ((c :: cs').drop (max 1 ((findRule (c :: cs')).getD ("MISMATCH", 1)).2)).length
          ≤ fuel := by
        rw [List.length_drop]
        have h1 : 1 ≤ max 1 ((findRule (c :: cs')).getD ("MISMATCH", 1)).2 := le_max_left _ _
        simp only [List.length_cons] at h ⊢
        omega
      simp only [scanAux, List.map_cons, List.flatten_cons, data_mk]
      rw [ih _ hlen, List.take_append_drop]

/-- Every raw match is tagged with a rule name and obeys the newline
discipline of its rule. -/
theorem scanAux_elem : ∀ (fuel : Nat) (cs : List Char), ∀ p ∈ scanAux fuel cs,
    p.1 ∈ ruleNamesL ∧ nlOk p.1 p.2.data := by
  intro fuel
  induction fuel with
  | zero =>
    intro cs p hp
    simp [scanAux] at hp
  | succ fuel ih =>
    intro cs p hp
    match cs with
    | [] => simp [scanAux] at hp
    | c :: cs' =>
      simp only [scanAux] at hp
      rcases List.mem_cons.mp hp with rfl | hp
      · obtain ⟨r, hf⟩ := Option.isSome_iff_exists.mp (findRule_cons c cs')
        obtain ⟨m, hmem, hm⟩ := findRule_mem hf
        obtain ⟨hpos, hnl⟩ := rules_spec (r.1, m) hmem (c :: cs') r.2 hm
        have hmax : max 1 r.2 = r.2 := Nat.max_eq_right hpos
        simp only [hf, Option.getD_some, hmax, data_mk]
        refine ⟨?_, hnl⟩
        have : (r.1, m).1 ∈ rules.map Prod.fst := List.mem_map_of_mem Prod.fst hmem
        exact this
      · exact ih _ p hp

theorem rawMatches_elem (s : List Char) : ∀ p ∈ rawMatches s,
    p.1 ∈ ruleNamesL ∧ nlOk p.1 p.2.data :=
  scanAux_elem s.length s

/-! ### The classifier and the driver step -/

theorem idStage_fst_mem (v : String) (lk : Option String) :
    (idStage v lk).1 ∈ clsKindsL := by
  unfold idStage
  repeat' split
  all_goals simp [clsKindsL]

theorem classifyWord_fst_mem (v : String) (lk : Option String) :
    (classifyWord v lk).1 ∈ clsKindsL := by
  unfold classifyWord
  repeat' split
  all_goals first
    | exact idStage_fst_mem v lk
    | simp [clsKindsL]

theorem idStage_invalid_iff (v : String) (lk : Option String) :
    (idStage v lk).1 = "INVALID" ↔ (idStage v lk).2 ≠ none := by
  unfold idStage
  repeat' split
  all_goals simp

theorem classifyWord_invalid_iff (v : String) (lk : Option String) :
    (classifyWord v lk).1 = "INVALID" ↔ (classifyWord v lk).2 ≠ none := by
  unfold classifyWord
  repeat' split
  all_goals first
    | exact idStage_invalid_iff v lk
    | simp

theorem wordStep_line (st : LexState) (v : String) : (wordStep st v).line = st.line := by
  simp only [wordStep]
  repeat' split
  all_goals rfl

theorem wordStep_parts (st : LexState) (v : String) :
    ∃ tk : Token, (wordStep st v).tokens = st.tokens ++ [tk] ∧ tk.type ≠ "EOF" ∧
      tk.line = st.line ∧ tk.value = v := by
  have hmem := classifyWord_fst_mem v st.lastKw
  have hEOF : (classifyWord v st.lastKw).1 ≠ "EOF" :=
    (by decide : ∀ x ∈ clsKindsL, x ≠ "EOF") _ hmem
  simp only [wordStep]
  repeat' split
  all_goals exact ⟨_, rfl, by first | exact hEOF | simp, rfl, rfl⟩

theorem notSkip_of (kind : String) (h1 : ¬ kind = "NEWLINE")
    (h2 : ¬(kind = "SKIP" ∨ kind = "COMMENT_SINGLE")) (h3 : ¬ kind = "COMMENT_MULTI") :
    kind ∉ skipKindsL := by
  intro hmem
  simp only [skipKindsL, List.mem_cons, List.not_mem_nil, or_false] at hmem
  rcases hmem with rfl | rfl | rfl | rfl
  · exact h1 rfl
  · exact h2 (Or.inl rfl)
  · exact h2 (Or.inr rfl)
  · exact h3 rfl

/-- The shape of one driver step: tokens are only appended, the line counter
never decreases, a skipped kind appends nothing and every other kind appends
exactly one token carrying the lexeme of the match. -/
theorem stepMatch_parts (st : LexState) (kv : String × String) (hk : kv.1 ≠ "EOF") :
    ∃ ts : List Token, (stepMatch st kv).tokens = st.tokens ++ ts ∧
      (∀ t ∈ ts, t.type ≠ "EOF" ∧ t.line = (stepMatch st kv).line ∧ t.value = kv.2) ∧
      (kv.1 ∈ skipKindsL → ts = []) ∧
      (kv.1 ∉ skipKindsL → ∃ tk, ts = [tk]) ∧
      st.line ≤ (stepMatch st kv).line := by
  obtain ⟨kind, v⟩ := kv
  simp only at hk
  simp only [stepMatch]
  by_cases h1 : kind = "NEWLINE"
  · rw [if_pos h1]
    subst h1
    exact ⟨[], by simp, by simp, fun _ => rfl, fun hna => absurd (by decide) hna, Nat.le_succ _⟩
  rw [if_neg h1]
  by_cases h2 : kind = "SKIP" ∨ kind = "COMMENT_SINGLE"
  · rw [if_pos h2]
    refine ⟨[], by simp, by simp, fun _ => rfl, fun hna => ?_, le_refl _⟩
    rcases h2 with rfl | rfl
    · exact absurd (by decide) hna
    · exact absurd (by decide) hna
  rw [if_neg h2]
  by_cases h3 : kind = "COMMENT_MULTI"
  · rw [if_pos h3]
    subst h3
    exact ⟨[], by simp, by simp, fun _ => rfl,
      fun hna => absurd (by decide) hna, Nat.le_add_right _ _⟩
  rw [if_neg h3]
  by_cases h4 : kind = "ERR_UNTERM_CMT"
  · rw [if_pos h4]
    subst h4
    refine ⟨[⟨"INVALID", v, st.line + countNL v⟩], rfl, ?_,
      fun hmem => absurd hmem (by decide), fun _ => ⟨_, rfl⟩, Nat.le_add_right _ _⟩
    intro t ht
    rcases List.mem_singleton.mp ht with rfl
    exact ⟨by simp, rfl, rfl⟩
  rw [if_neg h4]
  by_cases h5 : kind = "UNTERM_STRING"
  · rw [if_pos h5]
    subst h5
    refine ⟨[⟨"INVALID", v, st.line⟩], rfl, ?_,
      fun hmem => absurd hmem (by decide), fun _ => ⟨_, rfl⟩, le_refl _⟩
    intro t ht
    rcases List.mem_singleton.mp ht with rfl
    exact ⟨by simp, rfl, rfl⟩
  rw [if_neg h5]
  by_cases h6 : kind = "ERR_FLOAT"
  · rw [if_pos h6]
    subst h6
    refine ⟨[⟨"INVALID", v, st.line⟩], rfl, ?_,
      fun hmem => absurd hmem (by decide), fun _ => ⟨_, rfl⟩, le_refl _⟩
    intro t ht
    rcases List.mem_singleton.mp ht with rfl
    exact ⟨by simp, rfl, rfl⟩
  rw [if_neg h6]
  by_cases h7 : kind = "ERR_SINGLE_QUOTE"
  · rw [if_pos h7]
    subst h7
    refine ⟨[⟨"INVALID", v, st.line⟩], rfl, ?_,
      fun hmem => absurd hmem (by decide), fun _ => ⟨_, rfl⟩, le_refl _⟩
    intro t ht
    rcases List.mem_singleton.mp ht with rfl
    exact ⟨by simp, rfl, rfl⟩
  rw [if_neg h7]
  by_cases h8 : kind = "ERR_ID_DIGIT"
  · rw [if_pos h8]
    subst h8
    refine ⟨[⟨"INVALID", v, st.line⟩], rfl, ?_,
      fun hmem => absurd hmem (by decide), fun _ => ⟨_, rfl⟩, le_refl _⟩
    intro t ht
    rcases List.mem_singleton.mp ht with rfl
    exact ⟨by simp, rfl, rfl⟩
  rw [if_neg h8]
  by_cases h9 : kind = "ERR_ID_HYPHEN"
  · rw [if_pos h9]
    subst h9
    refine ⟨[⟨"INVALID", v, st.line⟩], rfl, ?_,
      fun hmem => absurd hmem (by decide), fun _ => ⟨_, rfl⟩, le_refl _⟩
    intro t ht
    rcases List.mem_singleton.mp ht with rfl
    exact ⟨by simp, rfl, rfl⟩
  rw [if_neg h9]
  by_cases h10 : kind = "ERR_ILLEGAL_CHAR"
  · rw [if_pos h10]
    subst h10
    refine ⟨[⟨"INVALID", v, st.line⟩], rfl, ?_,
      fun hmem => absurd hmem (by decide), fun _ => ⟨_, rfl⟩, le_refl _⟩
    intro t ht
    rcases List.mem_singleton.mp ht with rfl
    exact ⟨by simp, rfl, rfl⟩
  rw [if_neg h10]
  by_cases h11 : isPre (String.data "ERR_OP") kind.data = true
  · rw [if_pos h11]
    refine ⟨[⟨"INVALID", v, st.line⟩], rfl, ?_,
      fun hmem => absurd hmem (notSkip_of kind h1 h2 h3), fun _ => ⟨_, rfl⟩, le_refl _⟩
    intro t ht
    rcases List.mem_singleton.mp ht with rfl
    exact ⟨by simp, rfl, rfl⟩
  rw [if_neg h11]
  by_cases h12 : kind = "MISMATCH"
  · rw [if_pos h12]
    subst h12
    refine ⟨[⟨"INVALID", v, st.line⟩], rfl, ?_,
      fun hmem => absurd hmem (by decide), fun _ => ⟨_, rfl⟩, le_refl _⟩
    intro t ht
    rcases List.mem_singleton.mp ht with rfl
    exact ⟨by simp, rfl, rfl⟩
  rw [if_neg h12]
  by_cases h13 : kind = "WORD"
  · rw [if_pos h13]
    obtain ⟨tk, htk, hty, hline, hval⟩ := wordStep_parts st v
    refine ⟨[tk], by rw [htk], ?_,
      fun hmem => absurd hmem (notSkip_of kind h1 h2 h3), fun _ => ⟨_, rfl⟩,
      by rw [wordStep_line]⟩
    intro t ht
    rcases List.mem_singleton.mp ht with rfl
    exact ⟨hty, by rw [wordStep_line]; exact hline, hval⟩
  rw [if_neg h13]
  refine ⟨[⟨kind, v, st.line⟩], rfl, ?_,
    fun hmem => absurd hmem (notSkip_of kind h1 h2 h3), fun _ => ⟨_, rfl⟩, le_refl _⟩
  intro t ht
  rcases List.mem_singleton.mp ht with rfl
  exact ⟨hk, rfl, rfl⟩

/-- How one step moves the line counter, by kind. -/
theorem stepMatch_line (st : LexState) (kv : String × String) :
    (stepMatch st kv).line = st.line + lineDelta kv := by
  obtain ⟨kind, v⟩ := kv
  simp only [stepMatch, lineDelta]
  by_cases h1 : kind = "NEWLINE"
  · rw [if_pos h1, if_pos h1]
  rw [if_neg h1, if_neg h1]
  by_cases h2 : kind = "SKIP" ∨ kind = "COMMENT_SINGLE"
  · have hncm : ¬(kind = "COMMENT_MULTI" ∨ kind = "ERR_UNTERM_CMT") := by
      rcases h2 with rfl | rfl <;> decide
    rw [if_pos h2, if_neg hncm]
    omega
  rw [if_neg h2]
  by_cases h3 : kind = "COMMENT_MULTI"
  · rw [if_pos h3, if_pos (Or.inl h3)]
  rw [if_neg h3]
  by_cases h4 : kind = "ERR_UNTERM_CMT"
  · rw [if_pos h4, if_pos (Or.inr h4)]
    rfl
  rw [if_neg h4, if_neg (fun hx => Or.elim hx h3 h4)]
  by_cases h5 : kind = "UNTERM_STRING"
  · rw [if_pos h5]; rfl
  rw [if_neg h5]
  by_cases h6 : kind = "ERR_FLOAT"
  · rw [if_pos h6]; rfl
  rw [if_neg h6]
  by_cases h7 : kind = "ERR_SINGLE_QUOTE"
  · rw [if_pos h7]; rfl
  rw [if_neg h7]
  by_cases h8 : kind = "ERR_ID_DIGIT"
  · rw [if_pos h8]; rfl
  rw [if_neg h8]
  by_cases h9 : kind = "ERR_ID_HYPHEN"
  · rw [if_pos h9]; rfl
  rw [if_neg h9]
  by_cases h10 : kind = "ERR_ILLEGAL_CHAR"
  · rw [if_pos h10]; rfl
  rw [if_neg h10]
  by_cases h11 : isPre (String.data "ERR_OP") kind.data = true
  · rw [if_pos h11]; rfl
  rw [if_neg h11]
  by_cases h12 : kind = "MISMATCH"
  · rw [if_pos h12]; rfl
  rw [if_neg h12]
  by_cases h13 : kind = "WORD"
  · rw [if_pos h13, wordStep_line]
    omega
  rw [if_neg h13]
  rfl

/-! ### Whole-run invariants -/

theorem rawMatches_names (s : List Char) : ∀ kv ∈ rawMatches s, kv.1 ≠ "EOF" := by
  intro kv hkv
  have hm := (rawMatches_elem s kv hkv).1
  exact (by decide : ∀ x ∈ ruleNamesL, x ≠ "EOF") _ hm

theorem foldl_tokens_values : ∀ (ms : List (String × String)) (st : LexState),
    (∀ kv ∈ ms, kv.1 ≠ "EOF") →
    (ms.foldl stepMatch st).tokens.map Token.value
      = st.tokens.map Token.value
        ++ (ms.filter (fun kv => decide (kv.1 ∉ skipKindsL))).map Prod.snd := by
  intro ms
  induction ms with
  | nil => intro st _; simp
  | cons kv ms ih =>
    intro st h
    have hk := h kv (List.mem_cons_self kv ms)
    obtain ⟨ts, hts, hall, hskip, hnonskip, _⟩ := stepMatch_parts st kv hk
    rw [List.foldl_cons, ih _ (fun x hx => h x (List.mem_cons_of_mem _ hx)), hts]
    by_cases hs : kv.1 ∈ skipKindsL
    · rw [hskip hs, List.filter_cons_of_neg (by simp [hs])]
      simp
    · obtain ⟨tk, rfl⟩ := hnonskip hs
      rw [List.filter_cons_of_pos (by simp [hs])]
      have hval := (hall tk (List.mem_singleton_self tk)).2.2
      simp [List.map_append, hval]

theorem foldl_tokens_types : ∀ (ms : List (String × String)) (st : LexState),
    (∀ kv ∈ ms, kv.1 ≠ "EOF") → (∀ t ∈ st.tokens, t.type ≠ "EOF") →
    ∀ t ∈ (ms.foldl stepMatch st).tokens, t.type ≠ "EOF" := by
  intro ms
  induction ms with
  | nil => intro st _ hst; exact hst
  | cons kv ms ih =>
    intro st h hst
    rw [List.foldl_cons]
    apply ih _ (fun x hx => h x (List.mem_cons_of_mem _ hx))
    obtain ⟨ts, hts, hall, _, _, _⟩ := stepMatch_parts st kv (h kv (List.mem_cons_self kv ms))
    rw [hts]
    intro t ht
    rcases List.mem_append.mp ht with ht | ht
    · exact hst t ht
    · exact (hall t ht).1

theorem foldl_sorted : ∀ (ms : List (String × String)) (st : LexState),
    (∀ kv ∈ ms, kv.1 ≠ "EOF") →
    (∀ t ∈ st.tokens, t.line ≤ st.line) →
    List.Pairwise (fun a b => a.line ≤ b.line) st.tokens →
    (∀ t ∈ (ms.foldl stepMatch st).tokens, t.line ≤ (ms.foldl stepMatch st).line) ∧
    List.Pairwise (fun a b => a.line ≤ b.line) (ms.foldl stepMatch st).tokens ∧
    st.line ≤ (ms.foldl stepMatch st).line := by
  intro ms
  induction ms with
  | nil => intro st _ hb hp; exact ⟨hb, hp, le_refl _⟩
  | cons kv ms ih =>
    intro st h hb hp
    obtain ⟨ts, hts, hall, hskip, hnonskip, hline⟩ :=
      stepMatch_parts st kv (h kv (List.mem_cons_self kv ms))
    rw [List.foldl_cons]
    have hb1 : ∀ t ∈ (stepMatch st kv).tokens, t.line ≤ (stepMatch st kv).line := by
      rw [hts]
      intro t ht
      rcases List.mem_append.mp ht with ht | ht
      · exact le_trans (hb t ht) hline
      · exact le_of_eq (hall t ht).2.1
    have hp1 : List.Pairwise (fun a b => a.line ≤ b.line) (stepMatch st kv).tokens := by
      rw [hts, List.pairwise_append]
      refine ⟨hp, ?_, ?_⟩
      · by_cases hs : kv.1 ∈ skipKindsL
        · rw [hskip hs]
          exact List.Pairwise.nil
        · obtain ⟨tk, hk⟩ := hnonskip hs
          rw [hk]
          exact List.pairwise_singleton _ _
      · intro a ha b hbm
        rw [(hall b hbm).2.1]
        exact le_trans (hb a ha) hline
    obtain ⟨c1, c2, c3⟩ := ih (stepMatch st kv) (fun x hx => h x (List.mem_cons_of_mem _ hx)) hb1 hp1
    exact ⟨c1, c2, le_trans hline c3⟩

theorem foldl_line : ∀ (ms : List (String × String)) (st : LexState),
    (ms.foldl stepMatch st).line = st.line + (ms.map lineDelta).sum := by
  intro ms
  induction ms with
  | nil => intro st; simp
  | cons kv ms ih =>
    intro st
    rw [List.foldl_cons, ih, stepMatch_line]
    simp only [List.map_cons, List.sum_cons]
    omega

/-! ### Claim theorems -/

/-- C1: the raw matches of the scanner partition the buffer with no gaps and
no overlaps: their lexemes concatenate back to the input exactly, and the
tokens of the run carry exactly the lexemes of the non-skipped matches in
order, so reinserting the skipped whitespace, newline and comment spans at
their original positions reconstructs the original buffer with no character
dropped or duplicated. -/
theorem scanner_total_coverage (src : String) :
    ((rawMatches src.data).map (fun p => p.2.data)).flatten = src.data ∧
    (lexRun src).tokens.map Token.value
      = ((rawMatches src.data).filter (fun kv => decide (kv.1 ∉ skipKindsL))).map Prod.snd := by
  constructor
  · exact scanAux_join src.data.length src.data (le_refl _)
  · have h := foldl_tokens_values (rawMatches src.data) initState (rawMatches_names src.data)
    simpa using h

/-- C2: for every input buffer, including the empty one, the token list of
tokenize is the body tokens followed by exactly one terminal EOF token; no
body token is an EOF token, so EOF occurs exactly once and only at the end,
and its line field is the final value of the line counter of the run. -/
theorem tokenize_terminal_eof (src : String) :
    (tokenize src).1 = (lexRun src).tokens ++ [Token.mk "EOF" "EOF" (lexRun src).line] ∧
    (∀ t ∈ (lexRun src).tokens, t.type ≠ "EOF") ∧
    (tokenize src).1.countP (fun t => t.type == "EOF") = 1 := by
  have hbody : ∀ t ∈ (lexRun src).tokens, t.type ≠ "EOF" :=
    foldl_tokens_types (rawMatches src.data) initState (rawMatches_names src.data)
      (by intro t ht; cases ht)
  refine ⟨rfl, hbody, ?_⟩
  have he : (tokenize src).1 = (lexRun src).tokens ++ [Token.mk "EOF" "EOF" (lexRun src).line] :=
    rfl
  rw [he, List.countP_append]
  have h0 : (lexRun src).tokens.countP (fun t => t.type == "EOF") = 0 := by
    rw [List.countP_eq_zero]
    intro t ht
    simp [hbody t ht]
  rw [h0]
  rfl


theorem count_nl_flatten : ∀ (L : List (List Char)),
    L.flatten.count '\n' = (L.map (fun l => l.count '\n')).sum := by
  intro L
  induction L with
  | nil => rfl
  | cons l L ih => rw [List.flatten_cons, List.count_append, List.map_cons, List.sum_cons, ih]

theorem sum_map_congr {α : Type} (l : List α) (f g : α → Nat) (h : ∀ x ∈ l, f x = g x) :
    (l.map f).sum = (l.map g).sum := by
  induction l with
  | nil => rfl
  | cons a l ih =>
    rw [List.map_cons, List.map_cons, List.sum_cons, List.sum_cons,
      h a (List.mem_cons_self a l), ih (fun x hx => h x (List.mem_cons_of_mem _ hx))]

/-- C3 counterexample: a string literal spanning a newline refutes the
original claim.  The buffer consists of a single STRING_LITERAL raw match
(so it does not end with an unterminated multi-line comment), it contains
one newline character, yet the final EndOfInput token is stamped with line
1, not 1 + 1 = 2: the scanner never advances the line counter for the
newline embedded in the string lexeme. -/
theorem line_final_counterexample :
    rawMatches (String.mk [dq, 'a', '\n', 'b', dq]).data
        = [("STRING_LITERAL", String.mk [dq, 'a', '\n', 'b', dq])] ∧
    (tokenize (String.mk [dq, 'a', '\n', 'b', dq])).1
        = [⟨"STRING_LITERAL", String.mk [dq, 'a', '\n', 'b', dq], 1⟩, ⟨"EOF", "EOF", 1⟩] ∧
    (String.mk [dq, 'a', '\n', 'b', dq]).data.count '\n' = 1 := by
  refine ⟨rfl, rfl, rfl⟩

/-- C3 (amended): for every buffer, without any hypothesis, the token line
numbers are non-decreasing in output order; and the final EndOfInput token
line equals 1 + the number of newline characters of the buffer, provided no
quoted lexeme (string literal, character literal, or malformed
single-quoted literal) spans a newline — those are the matches that consume
a newline without advancing the line counter, while terminated and
unterminated multi-line comments do advance it. -/
theorem line_monotonic_and_final (src : String) :
    List.Pairwise (fun a b => a.line ≤ b.line) (tokenize src).1 ∧
    ((∀ p ∈ rawMatches src.data,
        p.1 = "STRING_LITERAL" ∨ p.1 = "CHAR_LITERAL" ∨ p.1 = "ERR_SINGLE_QUOTE" →
        p.2.data.count '\n' = 0) →
      (tokenize src).1.getLast? = some ⟨"EOF", "EOF", 1 + src.data.count '\n'⟩) := by
  have hnames := rawMatches_names src.data
  have hsorted := foldl_sorted (rawMatches src.data) initState hnames
    (by intro t ht; cases ht) List.Pairwise.nil
  constructor
  · show List.Pairwise (fun a b => a.line ≤ b.line)
      ((lexRun src).tokens ++ [Token.mk "EOF" "EOF" (lexRun src).line])
    rw [List.pairwise_append]
    refine ⟨hsorted.2.1, List.pairwise_singleton _ _, ?_⟩
    intro a ha b hbm
    rcases List.mem_singleton.mp hbm with rfl
    exact hsorted.1 a ha
  intro h
  have hdelta : ∀ p ∈ rawMatches src.data, lineDelta p = p.2.data.count '\n' := by
    intro p hp
    obtain ⟨hname, hnl⟩ := rawMatches_elem src.data p hp
    unfold lineDelta
    by_cases h1 : p.1 = "NEWLINE"
    · rw [if_pos h1]
      unfold nlOk at hnl
      rw [if_pos h1] at hnl
      rw [hnl]
      rfl
    rw [if_neg h1]
    by_cases h2 : p.1 = "COMMENT_MULTI" ∨ p.1 = "ERR_UNTERM_CMT"
    · rw [if_pos h2]
      rfl
    rw [if_neg h2]
    by_cases h3 : p.1 = "STRING_LITERAL" ∨ p.1 = "CHAR_LITERAL" ∨ p.1 = "ERR_SINGLE_QUOTE"
    · exact (h p hp h3).symm
    · unfold nlOk at hnl
      rw [if_neg h1, if_neg ?hx] at hnl
      · exact hnl.symm
      case hx =>
        intro hmem
        simp only [exemptNL, List.mem_cons, List.not_mem_nil, or_false] at hmem
        rcases hmem with hm | hm | hm | hm | hm
        · exact h2 (Or.inl hm)
        · exact h2 (Or.inr hm)
        · exact h3 (Or.inl hm)
        · exact h3 (Or.inr (Or.inl hm))
        · exact h3 (Or.inr (Or.inr hm))
  have hfinal : (lexRun src).line = 1 + src.data.count '\n' := by
    unfold lexRun
    rw [foldl_line]
    have hs1 : ((rawMatches src.data).map lineDelta).sum
        = ((rawMatches src.data).map (fun p => p.2.data.count '\n')).sum :=
      sum_map_congr _ _ _ hdelta
    have hs2 : src.data.count '\n'
        = ((rawMatches src.data).map (fun p => p.2.data)).flatten.count '\n' := by
      unfold rawMatches
      rw [scanAux_join src.data.length src.data (le_refl _)]
    rw [hs1, hs2, count_nl_flatten, List.map_map]
    rfl
  show ((lexRun src).tokens ++ [Token.mk "EOF" "EOF" (lexRun src).line]).getLast?
    = some ⟨"EOF", "EOF", 1 + src.data.count '\n'⟩
  rw [List.getLast?_concat, hfinal]

/-- C3 witness: on the two-line buffer of digits the token lines are
non-decreasing and the EndOfInput token is stamped with line 2. -/
theorem line_monotonic_and_final_witness :
    List.Pairwise (fun a b => a.line ≤ b.line) (tokenize (String.mk ['1', '\n', '2'])).1 ∧
    (tokenize (String.mk ['1', '\n', '2'])).1.getLast? = some ⟨"EOF", "EOF", 2⟩ := by
  have h := line_monotonic_and_final (String.mk ['1', '\n', '2'])
  exact ⟨h.1, h.2 (by decide)⟩

/-- C4 counterexample: on an unterminated block comment opening on line 1
and spanning one newline, the diagnostic is recorded at line 1 (the line of
the first character of the lexeme) but the Invalid token itself is stamped
with line 2, the line of its last character — refuting the claim that the
token is stamped with the line of its first character. -/
theorem unterm_comment_line_counterexample :
    tokenize (String.mk ['/', '*', '\n'])
      = ([⟨"INVALID", String.mk ['/', '*', '\n'], 2⟩, ⟨"EOF", "EOF", 2⟩],
         [errText 1 "Unterminated multi-line comment"]) := by
  rfl

/-- C4 (amended): every emitted token is stamped with the running line
counter at the moment it is appended, and no kind except NEWLINE,
COMMENT_MULTI and ERR_UNTERM_CMT moves the counter, so a token is stamped
with the line of its first character with one exception: a multi-line
comment advances the counter by its embedded newline count before the token
following it is stamped, and the Invalid token of an unterminated block
comment is appended after the counter has been advanced by its own embedded
newlines — it is stamped with the line of its last character, while its
diagnostic is recorded at the line of its first character. -/
theorem unterm_comment_line_amended (st : LexState) (v : String) :
    (stepMatch st ("ERR_UNTERM_CMT", v)).tokens
      = st.tokens ++ [⟨"INVALID", v, st.line + countNL v⟩] ∧
    (stepMatch st ("ERR_UNTERM_CMT", v)).errors
      = st.errors ++ [errText st.line "Unterminated multi-line comment"] ∧
    (stepMatch st ("COMMENT_MULTI", v)).line = st.line + countNL v ∧
    (stepMatch st ("COMMENT_MULTI", v)).tokens = st.tokens ∧
    (∀ kind w, kind ∉ ["NEWLINE", "COMMENT_MULTI", "ERR_UNTERM_CMT"] →
      (stepMatch st (kind, w)).line = st.line) := by
  refine ⟨rfl, rfl, rfl, rfl, ?_⟩
  intro kind w hkm
  have h1 : ¬ kind = "NEWLINE" := by
    intro hx
    exact hkm (by rw [hx]; decide)
  have h2 : ¬ kind = "COMMENT_MULTI" := by
    intro hx
    exact hkm (by rw [hx]; decide)
  have h3 : ¬ kind = "ERR_UNTERM_CMT" := by
    intro hx
    exact hkm (by rw [hx]; decide)
  rw [stepMatch_line]
  have hd : lineDelta (kind, w) = 0 := by
    show (if kind = "NEWLINE" then 1
      else if kind = "COMMENT_MULTI" ∨ kind = "ERR_UNTERM_CMT" then countNL w else 0) = 0
    rw [if_neg h1, if_neg (fun hx => Or.elim hx h2 h3)]
  rw [hd]
  omega

/-- C4 witness: the amended statement at a concrete state and lexeme. -/
theorem unterm_comment_line_witness :
    (stepMatch initState ("ERR_UNTERM_CMT", String.mk ['/', '*', '\n'])).tokens
      = [⟨"INVALID", String.mk ['/', '*', '\n'], 2⟩] ∧
    (stepMatch initState ("ERR_UNTERM_CMT", String.mk ['/', '*', '\n'])).errors
      = [errText 1 "Unterminated multi-line comment"] ∧
    (stepMatch initState ("WORD", "x")).line = 1 := by
  obtain ⟨h1, h2, _, _, h5⟩ :=
    unterm_comment_line_amended initState (String.mk ['/', '*', '\n'])
  refine ⟨?_, ?_, h5 "WORD" "x" (by decide)⟩
  · rw [h1]
    rfl
  · rw [h2]
    rfl

theorem wordStep_errors (st : LexState) (v : String) :
    ∃ t : Token, (wordStep st v).tokens = st.tokens ++ [t] ∧ t.value = v ∧
      ((t.type = "INVALID" → ∃ e, (wordStep st v).errors = st.errors ++ [e]) ∧
       (t.type ≠ "INVALID" → (wordStep st v).errors = st.errors)) := by
  rcases hc : classifyWord v st.lastKw with ⟨cls, em⟩
  have hiff : (cls = "INVALID") ↔ (em ≠ none) := by
    have hi := classifyWord_invalid_iff v st.lastKw
    rw [hc] at hi
    exact hi
  simp only [wordStep, hc]
  by_cases h1 : cls = "NOISE_WORD"
  · rw [if_pos h1]
    have hem : em = none := by
      cases em with
      | none => rfl
      | some m =>
        have hx := hiff.mpr (by simp)
        rw [h1] at hx
        exact absurd hx (by decide)
    subst hem
    by_cases h2 : noiseCtx st.lastKw = some v
    · rw [if_pos h2]
      exact ⟨⟨"NOISE_WORD", v, st.line⟩, rfl, rfl, fun hx => absurd hx (by simp),
        fun _ => rfl⟩
    · rw [if_neg h2]
      exact ⟨⟨"INVALID", v, st.line⟩, rfl, rfl, fun _ => ⟨_, rfl⟩,
        fun hx => absurd rfl hx⟩
  rw [if_neg h1]
  by_cases h2 : cls = "KEYWORD"
  · rw [if_pos h2]
    have hem : em = none := by
      cases em with
      | none => rfl
      | some m =>
        have hx := hiff.mpr (by simp)
        rw [h2] at hx
        exact absurd hx (by decide)
    subst hem
    exact ⟨⟨"KEYWORD", v, st.line⟩, rfl, rfl, fun hx => absurd hx (by simp), fun _ => rfl⟩
  rw [if_neg h2]
  cases em with
  | some m =>
    have hcls : cls = "INVALID" := hiff.mpr (by simp)
    subst hcls
    exact ⟨⟨"INVALID", v, st.line⟩, rfl, rfl, fun _ => ⟨_, rfl⟩, fun hx => absurd rfl hx⟩
  | none =>
    have hcls : cls ≠ "INVALID" := by
      intro hx
      exact (hiff.mp hx) rfl
    exact ⟨⟨cls, v, st.line⟩, rfl, rfl, fun hx => absurd hx hcls, fun _ => rfl⟩

/-- C5: tokenization recovers from every malformed lexeme: each
malformed-category match appends exactly one diagnostic and exactly one
Invalid token carrying the original lexeme, the driver step always returns
a state so scanning continues; and each word match appends exactly one
token carrying the word, with exactly one diagnostic when that token is
Invalid and none otherwise (rejected words included). -/
theorem error_recovery (st : LexState) (kind v : String) (hk : kind ∈ errKindsL) :
    (∃ n e, (stepMatch st (kind, v)).tokens = st.tokens ++ [⟨"INVALID", v, n⟩] ∧
       (stepMatch st (kind, v)).errors = st.errors ++ [e]) ∧
    (∃ t : Token, (stepMatch st ("WORD", v)).tokens = st.tokens ++ [t] ∧ t.value = v ∧
       ((t.type = "INVALID" → ∃ e, (stepMatch st ("WORD", v)).errors = st.errors ++ [e]) ∧
        (t.type ≠ "INVALID" → (stepMatch st ("WORD", v)).errors = st.errors))) := by
  constructor
  · fin_cases hk <;> exact ⟨_, _, rfl, rfl⟩
  · exact wordStep_errors st v

/-- C5 witness: recovery at a concrete malformed float and word. -/
theorem error_recovery_witness :
    (∃ n e, (stepMatch initState ("ERR_FLOAT", "1.2.3")).tokens
        = initState.tokens ++ [⟨"INVALID", "1.2.3", n⟩] ∧
       (stepMatch initState ("ERR_FLOAT", "1.2.3")).errors = initState.errors ++ [e]) ∧
    (∃ t : Token, (stepMatch initState ("WORD", "1.2.3")).tokens = initState.tokens ++ [t] ∧
       t.value = "1.2.3" ∧
       ((t.type = "INVALID" →
          ∃ e, (stepMatch initState ("WORD", "1.2.3")).errors = initState.errors ++ [e]) ∧
        (t.type ≠ "INVALID" →
          (stepMatch initState ("WORD", "1.2.3")).errors = initState.errors))) :=
  error_recovery initState "ERR_FLOAT" "1.2.3" (by decide)


/-- C6: a word that exactly matches a keyword is rejected as a
keyword-used-as-identifier error (one diagnostic, Invalid kind) whenever the
last keyword is func, struct, type or a primitive-type name — except for the
two accepted exceptions, main directly after func and a contract keyword
directly after a primitive type — and is accepted as a Keyword under every
other last keyword, or none. -/
theorem keyword_protection (v k : String) (hv : v ∈ keywordsL) :
    (k ∈ strictL → ¬(k = "func" ∧ v = "main") → ¬(k ∈ primL ∧ v ∈ contractsL) →
      classifyWord v (some k) = ("INVALID", some (kwIdentMsg v))) ∧
    (v = "main" → classifyWord v (some "func") = ("KEYWORD", none)) ∧
    (k ∈ primL → v ∈ contractsL → classifyWord v (some k) = ("KEYWORD", none)) ∧
    (k ∉ strictL → classifyWord v (some k) = ("KEYWORD", none)) ∧
    classifyWord v none = ("KEYWORD", none) := by
  have hf : ¬(v = "function") := by
    intro hx
    subst hx
    exact absurd hv (by decide)
  have he : ¬(v = "elseif") := by
    intro hx
    subst hx
    exact absurd hv (by decide)
  have hp : ¬(v = "print") := by
    intro hx
    subst hx
    exact absurd hv (by decide)
  have hb : ¬(v = "true" ∨ v = "false") := by
    rintro (hx | hx) <;> (subst hx; exact absurd hv (by decide))
  have hredS : ∀ k2 : String, classifyWord v (some k2)
      = (if k2 ∈ strictL then
          if k2 = "func" ∧ v = "main" then ("KEYWORD", none)
          else if k2 ∈ primL ∧ v ∈ contractsL then ("KEYWORD", none)
          else ("INVALID", some (kwIdentMsg v))
        else ("KEYWORD", none)) := by
    intro k2
    unfold classifyWord
    rw [if_neg hf, if_neg he, if_neg hp, if_neg hb, if_pos hv]
  have hredN : classifyWord v none = ("KEYWORD", none) := by
    unfold classifyWord
    rw [if_neg hf, if_neg he, if_neg hp, if_neg hb, if_pos hv]
  refine ⟨?_, ?_, ?_, ?_, hredN⟩
  · intro hks hex1 hex2
    rw [hredS k, if_pos hks, if_neg hex1, if_neg hex2]
  · intro hm
    rw [hredS "func", if_pos (by decide : "func" ∈ strictL), if_pos ⟨rfl, hm⟩]
  · intro hkp hvc
    have hks : k ∈ strictL := by
      unfold strictL
      exact List.mem_cons_of_mem _ (List.mem_cons_of_mem _ (List.mem_cons_of_mem _ hkp))
    rw [hredS k, if_pos hks]
    by_cases hex1 : k = "func" ∧ v = "main"
    · rw [if_pos hex1]
    · rw [if_neg hex1, if_pos ⟨hkp, hvc⟩]
  · intro hks
    rw [hredS k, if_neg hks]

/-- C6 witness: the protection, the two exceptions and the unprotected
context at concrete words. -/
theorem keyword_protection_witness :
    classifyWord "int" (some "func") = ("INVALID", some (kwIdentMsg "int")) ∧
    classifyWord "main" (some "func") = ("KEYWORD", none) ∧
    classifyWord "requires" (some "int") = ("KEYWORD", none) ∧
    classifyWord "int" (some "let") = ("KEYWORD", none) ∧
    classifyWord "int" none = ("KEYWORD", none) := by
  refine ⟨?_, ?_, ?_, ?_, ?_⟩
  · exact (keyword_protection "int" "func" (by decide)).1 (by decide) (by decide) (by decide)
  · exact (keyword_protection "main" "func" (by decide)).2.1 rfl
  · exact (keyword_protection "requires" "int" (by decide)).2.2.1 (by decide) (by decide)
  · exact (keyword_protection "int" "let" (by decide)).2.2.2.1 (by decide)
  · exact (keyword_protection "int" "let" (by decide)).2.2.2.2

/-- C7: a noise word is classified NOISE_WORD by the classifier regardless
of context; the driver accepts it as a NoiseWord token exactly when it
equals the noise word registered for the current last keyword in the fixed
table (requires maps to that, ensures to the, type to is), leaving the
last-keyword context unchanged so a following word is classified under the
original introducing keyword; any mismatch, including no qualifying
predecessor, yields one diagnostic and an Invalid token (and clears the
context). -/
theorem noise_word_context (st : LexState) (v : String) (hv : v ∈ noiseL) :
    classifyWord v st.lastKw = ("NOISE_WORD", none) ∧
    (noiseCtx st.lastKw = some v →
      stepMatch st ("WORD", v)
        = { st with tokens := st.tokens ++ [⟨"NOISE_WORD", v, st.line⟩] }) ∧
    (noiseCtx st.lastKw ≠ some v →
      stepMatch st ("WORD", v)
        = { st with tokens := st.tokens ++ [⟨"INVALID", v, st.line⟩],
                    errors := st.errors ++ [errText st.line (noiseMsg v st.lastKw)],
                    lastKw := none }) := by
  have hcls : classifyWord v st.lastKw = ("NOISE_WORD", none) := by
    fin_cases hv <;> rfl
  refine ⟨hcls, ?_, ?_⟩
  · intro h2
    show wordStep st v = _
    simp only [wordStep, hcls]
    rw [if_pos trivial, if_pos h2]
    rfl
  · intro h2
    show wordStep st v = _
    simp only [wordStep, hcls]
    rw [if_pos trivial, if_neg h2]
    rfl

/-- C7 witness: that after requires is accepted with the context kept; that
with no qualifying predecessor is rejected with one diagnostic. -/
theorem noise_word_context_witness :
    classifyWord "that" (some "requires") = ("NOISE_WORD", none) ∧
    stepMatch ⟨1, some "requires", [], []⟩ ("WORD", "that")
      = ⟨1, some "requires", [⟨"NOISE_WORD", "that", 1⟩], []⟩ ∧
    stepMatch initState ("WORD", "that")
      = ⟨1, none, [⟨"INVALID", "that", 1⟩], [errText 1 (noiseMsg "that" none)]⟩ := by
  refine ⟨(noise_word_context ⟨1, some "requires", [], []⟩ "that" (by decide)).1, ?_, ?_⟩
  · have h := (noise_word_context ⟨1, some "requires", [], []⟩ "that" (by decide)).2.1
      (by decide)
    rw [h]
    rfl
  · have h := (noise_word_context initState "that" (by decide)).2.2 (by decide)
    rw [h]
    rfl


theorem msg_probe_ne {m1 m2 : String} (c1 c2 : Char)
    (h1 : (m1.data.drop 8).head? = some c1) (h2 : (m2.data.drop 8).head? = some c2)
    (hne : c1 ≠ c2) : m1 ≠ m2 := by
  intro h
  rw [h, h2] at h1
  exact hne (Option.some.inj h1).symm

theorem idStage_no_typo (v : String) (lk : Option String) (w s : String) :
    (idStage v lk).2 ≠ some (typoMsg w s) := by
  unfold idStage
  repeat' split
  all_goals intro hx
  all_goals first
    | exact Option.noConfusion hx
    | exact absurd (Option.some.inj hx) (msg_probe_ne 'f' 'l' rfl rfl (by decide))
    | exact absurd (Option.some.inj hx) (msg_probe_ne 'T' 'l' rfl rfl (by decide))
    | exact absurd (Option.some.inj hx) (msg_probe_ne 'v' 'l' rfl rfl (by decide))

/-- C8: for a word that reaches the typo checks (not an explicitly rejected
spelling, boolean, keyword, reserved literal or noise word): if its
lower-cased form is exactly a keyword it is rejected with the
case-sensitivity diagnostic, regardless of the fuzzy matcher (priority);
otherwise, if it is longer than the length threshold of one character and
the vocabulary holds a best close match at or above the similarity cutoff,
it is rejected with the did-you-mean diagnostic and an Invalid kind instead
of being classified as an identifier; and a word of length at most one is
never rejected by the fuzzy check. -/
theorem typo_detection (v : String) (lk : Option String)
    (h1 : ¬ v = "function") (h2 : ¬ v = "elseif") (h3 : ¬ v = "print")
    (h4 : ¬(v = "true" ∨ v = "false")) (h5 : v ∉ keywordsL)
    (h6 : v ∉ reservedL) (h7 : v ∉ noiseL) :
    (pyLower v ∈ keywordsL → classifyWord v lk = ("INVALID", some (caseMsg v))) ∧
    (pyLower v ∉ keywordsL → ∀ s, closeMatchBest v = some s → 1 < v.length →
      classifyWord v lk = ("INVALID", some (typoMsg v s))) ∧
    (v.length ≤ 1 → ∀ s, (classifyWord v lk).2 ≠ some (typoMsg v s)) := by
  have hred : classifyWord v lk
      = (if pyLower v ∈ keywordsL then ("INVALID", some (caseMsg v))
        else match closeMatchBest v with
          | some sugg =>
            if 1 < v.length then ("INVALID", some (typoMsg v sugg)) else idStage v lk
          | none => idStage v lk) := by
    unfold classifyWord
    rw [if_neg h1, if_neg h2, if_neg h3, if_neg h4, if_neg h5, if_neg h6, if_neg h7]
  refine ⟨?_, ?_, ?_⟩
  · intro hcase
    rw [hred, if_pos hcase]
  · intro hncase s hcm hlen
    rw [hred, if_neg hncase]
    split
    next sugg heq =>
      rw [hcm] at heq
      injection heq with heq
      subst heq
      rw [if_pos hlen]
    next heq =>
      rw [hcm] at heq
      cases heq
  · intro hlen s
    rw [hred]
    by_cases hcase : pyLower v ∈ keywordsL
    · rw [if_pos hcase]
      intro hx
      exact absurd (Option.some.inj hx) (msg_probe_ne ' ' 'l' rfl rfl (by decide))
    · rw [if_neg hcase]
      split
      next sugg heq =>
        rw [if_neg (by omega : ¬ 1 < v.length)]
        exact idStage_no_typo v lk v s
      next heq =>
        exact idStage_no_typo v lk v s

/-- C8 witness: a near-miss of func is fuzzily rejected with the suggestion
func, a case typo of while is rejected by the case shortcut, and a
one-letter word is never fuzzily rejected. -/
theorem typo_detection_witness :
    classifyWord "fnc" none = ("INVALID", some (typoMsg "fnc" "func")) ∧
    classifyWord "While" none = ("INVALID", some (caseMsg "While")) ∧
    (∀ s, (classifyWord "x" none).2 ≠ some (typoMsg "x" s)) := by
  refine ⟨?_, ?_, ?_⟩
  · exact (typo_detection "fnc" none (by decide) (by decide) (by decide) (by decide)
      (by decide) (by decide) (by decide)).2.1 (by decide) "func" rfl (by decide)
  · exact (typo_detection "While" none (by decide) (by decide) (by decide) (by decide)
      (by decide) (by decide) (by decide)).1 (by decide)
  · exact (typo_detection "x" none (by decide) (by decide) (by decide) (by decide)
      (by decide) (by decide) (by decide)).2.2 (by decide)

/-- C9 counterexample: directly after the primitive-type keyword int, the
word with lexeme underscore-x — whose first character is an underscore and
therefore not a lowercase letter — is accepted as a variable identifier
with no diagnostic, refuting the claim that acceptance after a primitive
type requires the first character to be lowercase. -/
theorem identifier_rules_counterexample :
    classifyWord "_x" (some "int") = ("ID_VAR", none) ∧ ('_').isLower = false := by
  exact ⟨rfl, rfl⟩

/-- C9 (amended): for a word reaching identifier classification: after func
it is accepted as the function-name kind iff it contains no uppercase
character; after type or struct it is accepted as the type-name kind iff
its first character is uppercase and it contains no underscore, with a
distinct diagnostic for each violation; after a primitive-type keyword it
is accepted as the variable-name kind iff its first character is not
uppercase (a lowercase letter or an underscore) and it contains no
uppercase character anywhere, with distinct diagnostics for an uppercase
first character and for embedded uppercase; with no governing strict
predecessor, an uppercase-first word without underscore is a type-name
reference, an uppercase-first word with an underscore is an error, and
anything else is a plain variable reference. -/
theorem identifier_rules (v : String) (c : Char) (cs : List Char) (hv : v.data = c :: cs)
    (h1 : ¬ v = "function") (h2 : ¬ v = "elseif") (h3 : ¬ v = "print")
    (h4 : ¬(v = "true" ∨ v = "false")) (h5 : v ∉ keywordsL)
    (h6 : v ∉ reservedL) (h7 : v ∉ noiseL) (h8 : pyLower v ∉ keywordsL)
    (h9 : closeMatchBest v = none ∨ v.length ≤ 1) :
    (classifyWord v (some "func")
      = if v.data.any Char.isUpper then ("INVALID", some (funcIdMsg v))
        else ("ID_VAR_FUNC", none)) ∧
    (∀ k, k = "type" ∨ k = "struct" →
      classifyWord v (some k)
        = if ¬ c.isUpper then ("INVALID", some (typeIdMsg1 v))
          else if v.data.contains '_' then ("INVALID", some (typeIdMsg2 v))
          else ("ID_VAR_TYPE", none)) ∧
    (∀ k, k ∈ primL →
      classifyWord v (some k)
        = if c.isUpper then ("INVALID", some (varIdMsg1 v))
          else if v.data.any Char.isUpper then ("INVALID", some (varIdMsg2 v))
          else ("ID_VAR", none)) ∧
    (∀ lk : Option String, (∀ k, lk = some k → k ∉ strictL) →
      classifyWord v lk
        = if c.isUpper then
            if v.data.contains '_' then ("INVALID", some (fallbackTypeMsg v))
            else ("ID_VAR_TYPE", none)
          else ("ID_VAR", none)) := by
  have hh : headChar v = c := by
    unfold headChar
    rw [hv]
    rfl
  have hred : ∀ lk, classifyWord v lk = idStage v lk := by
    intro lk
    unfold classifyWord
    rw [if_neg h1, if_neg h2, if_neg h3, if_neg h4, if_neg h5, if_neg h6, if_neg h7, if_neg h8]
    rcases h9 with h9 | h9
    · rw [h9]
    · cases hcm : closeMatchBest v with
      | none => rfl
      | some s =>
        show (if 1 < v.length then ("INVALID", some (typoMsg v s)) else idStage v lk)
          = idStage v lk
        rw [if_neg (by omega)]
  refine ⟨?_, ?_, ?_, ?_⟩
  · rw [hred (some "func")]
    unfold idStage
    rw [if_pos rfl]
  · intro k hk
    rcases hk with rfl | rfl
    · rw [hred (some "type")]
      unfold idStage
      rw [if_neg (by decide), if_pos (by decide), hh]
    · rw [hred (some "struct")]
      unfold idStage
      rw [if_neg (by decide), if_pos (by decide), hh]
  · intro k hk
    rw [hred (some k)]
    unfold idStage
    fin_cases hk <;>
      rw [if_neg (by decide), if_neg (by decide), if_pos (by decide), hh]
  · intro lk hlk
    have hn1 : ¬ lk = some "func" := fun hx => (hlk _ hx) (by decide)
    have hn2 : ¬(lk = some "type" ∨ lk = some "struct") := by
      rintro (hx | hx)
      · exact (hlk _ hx) (by decide)
      · exact (hlk _ hx) (by decide)
    have hn3 : lk ∉ primL.map some := by
      intro hx
      rcases List.mem_map.mp hx with ⟨k, hk, rfl⟩
      refine (hlk k rfl) ?_
      unfold strictL
      exact List.mem_cons_of_mem _ (List.mem_cons_of_mem _ (List.mem_cons_of_mem _ hk))
    rw [hred lk]
    unfold idStage
    rw [if_neg hn1, if_neg hn2, if_neg hn3, hh]

/-- C9 witness: a snake-case word in each governing context. -/
theorem identifier_rules_witness :
    classifyWord "zqx" (some "func") = ("ID_VAR_FUNC", none) ∧
    classifyWord "zqx" (some "type") = ("INVALID", some (typeIdMsg1 "zqx")) ∧
    classifyWord "zqx" (some "int") = ("ID_VAR", none) ∧
    classifyWord "zqx" none = ("ID_VAR", none) := by
  have h := identifier_rules "zqx" 'z' ['q', 'x'] rfl (by decide) (by decide) (by decide)
    (by decide) (by decide) (by decide) (by decide) (by decide) (Or.inl rfl)
  refine ⟨?_, ?_, ?_, ?_⟩
  · rw [h.1]
    rfl
  · rw [h.2.1 "type" (Or.inl rfl)]
    rfl
  · rw [h.2.2.1 "int" (by decide)]
    rfl
  · rw [h.2.2.2 none (fun k hk => by cases hk)]
    rfl

/-- C10: the lexemes true and false are classified as boolean literals with
no diagnostic regardless of the last-keyword context — including directly
after func, struct, type, or a primitive-type keyword, because the
boolean-literal check precedes the strict-predecessor guard and the
naming-convention rules — and accepting one clears the last-keyword
context. -/
theorem boolean_literal_context (lk : Option String) (st : LexState) :
    classifyWord "true" lk = ("BOOL_LITERAL", none) ∧
    classifyWord "false" lk = ("BOOL_LITERAL", none) ∧
    stepMatch st ("WORD", "true")
      = { st with tokens := st.tokens ++ [⟨"BOOL_LITERAL", "true", st.line⟩],
                  lastKw := none } ∧
    stepMatch st ("WORD", "false")
      = { st with tokens := st.tokens ++ [⟨"BOOL_LITERAL", "false", st.line⟩],
                  lastKw := none } := by
  refine ⟨rfl, rfl, rfl, rfl⟩


end Lumina
